import Mathlib

/-!
Verification of the `ai-utils` agent runtime (TypeScript) against its
natural-language specification.

The development shallowly embeds the relevant parts of the source:

* `src/agent.ts` — history event model, token estimation, tool dispatch
  (`callToResult`), and the agent loop (`runAbstractAgent`);
* `src/geminiAgent.ts` — the Gemini model-caller adapter: history filters
  (`filterOrphanedToolResults`, `filterInvalidToolCalls`,
  `filterUnsupportedGeminiAttachments`), request construction (`buildReq`),
  output mapping (`didNothing`, `geminiOutputPartToHistoryEvent`), the
  retry wrapper (`callGemini`), and the error-recovery strip loops
  (`stripAllNotActiveFiles`, `stripAllUnsupportedMimeTypes`,
  `stripAllExpiredFiles`).

Conventions of the embedding:

* JavaScript strings become `String`; machine timestamps become `Int`
  (epoch millis, always integral as produced by `Date.now()`).
* Optional / possibly-`undefined` fields become `Option`.
* External effects (the Gemini HTTP client, `rewriteHistory`, sleeping)
  are modelled as oracles passed in as arguments, and the functions under
  scrutiny additionally return an explicit trace of the externally visible
  actions they perform, in order.
* Fallible code returns `Except`.
-/

/-- `MediaAttachment` from `src/agent.ts`: a tagged union of an inline
(base64) attachment and a remote file reference, each with a mime type and
optional caption. -/
inductive MediaAttachment
  | inlineAtt (mimeType : String) (dataBase64 : String) (caption : Option String)
  | fileAtt (mimeType : String) (fileUri : String) (caption : Option String)
deriving DecidableEq

/-- `att.mimeType` — present on both variants. -/
def MediaAttachment.mimeType : MediaAttachment → String
  | .inlineAtt m _ _ => m
  | .fileAtt m _ _ => m

/-- `att.caption` — present on both variants. -/
def MediaAttachment.caption : MediaAttachment → Option String
  | .inlineAtt _ _ c => c
  | .fileAtt _ _ c => c

/-- `att.kind === "file"`. -/
def MediaAttachment.isFile : MediaAttachment → Bool
  | .fileAtt _ _ _ => true
  | _ => false

/-- `att.kind === "inline"`. -/
def MediaAttachment.isInline : MediaAttachment → Bool
  | .inlineAtt _ _ _ => true
  | _ => false

/-- The Gemini `modelMetadata` (`{type: "gemini"; thoughtSignature; responseId}`
from `src/geminiAgent.ts`).  `thoughtSignature` is `Option String` because the
source guards every access with `?.` (the field may be absent at runtime). -/
structure GeminiMetadata where
  responseId : String
  thoughtSignature : Option String
deriving DecidableEq

/-- Model of an untyped JavaScript value used as `tool_call.parameters`:
the source only ever asks whether it `isRecord` (a plain object) and what
`JSON.stringify` returns on it (`none` models a `JSON.stringify` throw;
`some ""` covers a falsy/`undefined` serialisation, which the token
estimator counts as 0 like the source's `!text` check does). -/
structure JsParams where
  isRec : Bool
  json : Option String
deriving DecidableEq

/-- `HistoryEvent` from `src/agent.ts`, specialised to the Gemini metadata
(`GeminiHistoryEvent` in `src/geminiAgent.ts`).  Every variant carries the
shared `id`/`timestamp` fields; `isOwn` is pinned per variant by the source's
types except for `do_nothing`, whose `isOwn` is an ordinary boolean field. -/
inductive HistoryEvent
  | participant_utterance (id : String) (timestamp : Int) (name : String)
      (text : String) (attachments : Option (List MediaAttachment))
  | own_utterance (id : String) (timestamp : Int) (text : String)
      (attachments : Option (List MediaAttachment))
      (modelMetadata : Option GeminiMetadata)
  | participant_edit_message (id : String) (timestamp : Int) (name : String)
      (text : String) (onMessage : String)
      (attachments : Option (List MediaAttachment))
  | own_edit_message (id : String) (timestamp : Int) (text : String)
      (onMessage : String) (attachments : Option (List MediaAttachment))
      (modelMetadata : Option GeminiMetadata)
  | participant_reaction (id : String) (timestamp : Int) (name : String)
      (reaction : String) (onMessage : String)
  | own_reaction (id : String) (timestamp : Int) (reaction : String)
      (onMessage : String) (modelMetadata : Option GeminiMetadata)
  | tool_call (id : String) (timestamp : Int) (name : String)
      (parameters : Option JsParams) (modelMetadata : Option GeminiMetadata)
  | tool_result (id : String) (timestamp : Int) (name : String)
      (result : String) (toolCallId : Option String)
      (attachments : Option (List MediaAttachment))
  | own_thought (id : String) (timestamp : Int) (text : String)
      (modelMetadata : Option GeminiMetadata)
  | do_nothing (id : String) (timestamp : Int) (isOwn : Bool)
      (modelMetadata : Option GeminiMetadata)
deriving DecidableEq

/-- Shared field `event.id`. -/
def HistoryEvent.eid : HistoryEvent → String
  | .participant_utterance i _ _ _ _ => i
  | .own_utterance i _ _ _ _ => i
  | .participant_edit_message i _ _ _ _ _ => i
  | .own_edit_message i _ _ _ _ _ => i
  | .participant_reaction i _ _ _ _ => i
  | .own_reaction i _ _ _ _ => i
  | .tool_call i _ _ _ _ => i
  | .tool_result i _ _ _ _ _ => i
  | .own_thought i _ _ _ => i
  | .do_nothing i _ _ _ => i

/-- Shared field `event.timestamp`. -/
def HistoryEvent.ets : HistoryEvent → Int
  | .participant_utterance _ t _ _ _ => t
  | .own_utterance _ t _ _ _ => t
  | .participant_edit_message _ t _ _ _ _ => t
  | .own_edit_message _ t _ _ _ _ => t
  | .participant_reaction _ t _ _ _ => t
  | .own_reaction _ t _ _ _ => t
  | .tool_call _ t _ _ _ => t
  | .tool_result _ t _ _ _ _ => t
  | .own_thought _ t _ _ => t
  | .do_nothing _ t _ _ => t

/-- Shared field `event.isOwn` (pinned per variant by the source's types,
free only on `do_nothing`). -/
def HistoryEvent.isOwnB : HistoryEvent → Bool
  | .participant_utterance _ _ _ _ _ => false
  | .participant_edit_message _ _ _ _ _ _ => false
  | .participant_reaction _ _ _ _ _ => false
  | .do_nothing _ _ own _ => own
  | _ => true

/-- `event.type === "tool_call"`. -/
def HistoryEvent.isToolCall : HistoryEvent → Bool
  | .tool_call _ _ _ _ _ => true
  | _ => false

/-- `event.type === "tool_result"`. -/
def HistoryEvent.isToolResult : HistoryEvent → Bool
  | .tool_result _ _ _ _ _ _ => true
  | _ => false

/-- `event.type === "do_nothing"`. -/
def HistoryEvent.isDoNothing : HistoryEvent → Bool
  | .do_nothing _ _ _ _ => true
  | _ => false

/-- `event.name` for `tool_call` / `tool_result` events (the tool name);
`""` elsewhere (never consulted there by the embedded algorithms). -/
def HistoryEvent.toolName : HistoryEvent → String
  | .tool_call _ _ n _ _ => n
  | .tool_result _ _ n _ _ _ => n
  | _ => ""

/-- `event.toolCallId` (only `tool_result` events carry the field). -/
def HistoryEvent.toolCallId? : HistoryEvent → Option String
  | .tool_result _ _ _ _ tid _ => tid
  | _ => none

/-- `event.modelMetadata` (for variants that carry the optional field). -/
def HistoryEvent.meta? : HistoryEvent → Option GeminiMetadata
  | .own_utterance _ _ _ _ m => m
  | .own_edit_message _ _ _ _ _ m => m
  | .own_reaction _ _ _ _ m => m
  | .tool_call _ _ _ _ m => m
  | .own_thought _ _ _ m => m
  | .do_nothing _ _ _ m => m
  | _ => none

/-- `"attachments" in event` — field presence is determined by the variant. -/
def HistoryEvent.hasAttachmentsField : HistoryEvent → Bool
  | .participant_utterance _ _ _ _ _ => true
  | .own_utterance _ _ _ _ _ => true
  | .participant_edit_message _ _ _ _ _ _ => true
  | .own_edit_message _ _ _ _ _ _ => true
  | .tool_result _ _ _ _ _ _ => true
  | _ => false

/-- `event.attachments` where the variant has the field, else `none`. -/
def HistoryEvent.attachments? : HistoryEvent → Option (List MediaAttachment)
  | .participant_utterance _ _ _ _ a => a
  | .own_utterance _ _ _ a _ => a
  | .participant_edit_message _ _ _ _ _ a => a
  | .own_edit_message _ _ _ _ a _ => a
  | .tool_result _ _ _ _ _ a => a
  | _ => none

-- ---------------------------------------------------------------------------
-- Token estimation (src/agent.ts, `approxTextTokens` … `estimateTokens`)
-- ---------------------------------------------------------------------------

/-- `approxTextTokens` from `src/agent.ts`:
`if (!text) return 0; return Math.max(1, Math.ceil((text.length / 4) * 1.3))`,
expressed over the length.  `⌈(n/4)·1.3⌉ = ⌈13n/40⌉ = (13n+39)/40` in `Nat`
division; the double-precision evaluation in the source agrees with the exact
rational for every length (the only risk is `13n/40` landing exactly on an
integer, and there the product `fl(n/4)·fl(1.3)` still rounds to that integer
since the relative error `≈3.4e-17` is below half an ulp `≈1.1e-16`). -/
def approxTextTokensLen (n : Nat) : Nat :=
  if n = 0 then 0 else max 1 ((13 * n + 39) / 40)

/-- `approxTextTokens` applied to a JS string (`!text` is true exactly for the
empty string here, since all call sites pass strings). -/
def approxTextTokens (s : String) : Nat :=
  approxTextTokensLen s.length

/-- `approxJsonTokens` from `src/agent.ts`, over the modelled `parameters`
value: `JSON.stringify` throwing hits the `catch` fallback constant 10, else
the serialisation is priced like text.  A wholly `undefined` parameters value
serialises to `undefined`, which `approxTextTokens` prices as 0 (covered by
`none => 0`). -/
def approxJsonTokens : Option JsParams → Nat
  | none => 0
  | some p =>
    match p.json with
    | some s => approxTextTokens s
    | none => 10

/-- `attachmentTokens` from `src/agent.ts`: inline attachments cost
`Math.ceil(dataBase64.length / 4 * 1.1)` (`= ⌈11n/40⌉ = (11n+39)/40`), file
references cost `approxTextTokens(fileUri) + approxTextTokens(mimeType)`. -/
def attachmentTokens : Option (List MediaAttachment) → Nat
  | none => 0
  | some atts =>
    atts.foldl
      (fun sum a =>
        match a with
        | .inlineAtt _ dat _ => sum + (11 * dat.length + 39) / 40
        | .fileAtt m uri _ => sum + approxTextTokens uri + approxTextTokens m)
      0

/-- `estimateTokens` from `src/agent.ts`, branch by branch. The source's
final `assertNever` throw is unreachable here because the Lean sum type is
closed. -/
def estimateTokens : HistoryEvent → Nat
  | .participant_utterance _ _ name text atts =>
    approxTextTokens name + approxTextTokens text + attachmentTokens atts + 2
  | .participant_edit_message _ _ name text _ atts =>
    approxTextTokens name + approxTextTokens text + attachmentTokens atts + 2
  | .own_utterance _ _ text atts _ =>
    approxTextTokens text + attachmentTokens atts + 2
  | .own_edit_message _ _ text _ atts _ =>
    approxTextTokens text + attachmentTokens atts + 2
  | .tool_call _ _ name params _ =>
    approxTextTokens name + approxJsonTokens params + 4
  | .tool_result _ _ name result _ atts =>
    approxTextTokens name + approxTextTokens result + attachmentTokens atts + 4
  | .own_thought _ _ text _ =>
    approxTextTokens text + 2
  | .participant_reaction _ _ name reaction _ =>
    approxTextTokens name + approxTextTokens reaction + 2
  | .own_reaction _ _ reaction _ _ =>
    approxTextTokens reaction + 2
  | .do_nothing _ _ _ _ => 1

-- ---------------------------------------------------------------------------
-- Orphaned tool-result filtering (src/geminiAgent.ts, filterOrphanedToolResults)
-- ---------------------------------------------------------------------------

/-- The source tests `e.toolCallId` for truthiness (`if (e.toolCallId)`),
so an empty-string id behaves like an absent one. -/
def truthyToolCallId (e : HistoryEvent) : Option String :=
  match e.toolCallId? with
  | some s => if s = "" then none else some s
  | none => none

/-- One step of the source's reservation pass
(`history.forEach(...)` in `filterOrphanedToolResults`): a `tool_result`
with a truthy `toolCallId` marks the first `tool_call` bearing that id
(if any) as reserved by pushing its id. -/
def reservedStep (allCalls : List HistoryEvent) (s : List String)
    (e : HistoryEvent) : List String :=
  match truthyToolCallId e with
  | some tid =>
    match allCalls.find? (fun c => c.eid == tid) with
    | some c => c.eid :: s
    | none => s
  | none => s

/-- The source's `reservedCallIds` set: ids of calls claimed by strict
(`toolCallId`) matching anywhere in the history. -/
def reservedCallIds (allCalls history : List HistoryEvent) : List String :=
  history.foldl (reservedStep allCalls) []

/-- The main pass of `filterOrphanedToolResults`: a `history.filter` whose
callback threads the two mutable sets `processedStrictCalls` (`strict`) and
`processedLegacyCalls` (`legacy`), expressed as a recursion. -/
def filterOrphanedGo (allCalls : List HistoryEvent) (reserved : List String) :
    List HistoryEvent → List String → List String → List HistoryEvent
  | [], _, _ => []
  | e :: rest, strict, legacy =>
    if e.isToolResult then
      match truthyToolCallId e with
      | some tid =>
        match allCalls.find? (fun c => c.eid == tid && !(strict.contains c.eid)) with
        | some c => e :: filterOrphanedGo allCalls reserved rest (c.eid :: strict) legacy
        | none => filterOrphanedGo allCalls reserved rest strict legacy
      | none =>
        match allCalls.find? (fun c =>
            c.toolName == e.toolName && decide (c.ets < e.ets) &&
            !(reserved.contains c.eid) && !(legacy.contains c.eid)) with
        | some c => e :: filterOrphanedGo allCalls reserved rest strict (c.eid :: legacy)
        | none => filterOrphanedGo allCalls reserved rest strict legacy
    else e :: filterOrphanedGo allCalls reserved rest strict legacy

/-- `filterOrphanedToolResults` from `src/geminiAgent.ts`. -/
def filterOrphanedToolResults (history : List HistoryEvent) : List HistoryEvent :=
  let allCalls := history.filter HistoryEvent.isToolCall
  filterOrphanedGo allCalls (reservedCallIds allCalls history) history [] []

/-- Claim-side predicate: a call is "reserved by a strict (toolCallId) match
anywhere in the history" when some tool_result carries its id as `toolCallId`. -/
def reservedByStrict (history : List HistoryEvent) (c : HistoryEvent) : Bool :=
  history.any (fun r => truthyToolCallId r == some c.eid)

/-- Formalisation of the claim's wording, carrying the ids already claimed by
earlier strict-matched results (`claimedStrict`) and by earlier legacy-matched
results (`claimedLegacy`):

* every non-`tool_result` event is kept;
* a `tool_result` carrying a `toolCallId` is kept iff some `tool_call` with
  that id exists and the id has not already been claimed by an earlier
  strict-matched result;
* a `tool_result` without a `toolCallId` is kept iff some `tool_call` with
  the same name and a strictly earlier timestamp exists that is neither
  reserved by any strict match anywhere in the history nor already claimed
  by an earlier legacy-matched result, the earliest such unclaimed call
  being the one it claims (greedy matching). -/
def claimOrphanGo (history : List HistoryEvent) :
    List HistoryEvent → List String → List String → List HistoryEvent
  | [], _, _ => []
  | e :: rest, claimedStrict, claimedLegacy =>
    if e.isToolResult then
      match truthyToolCallId e with
      | some tid =>
        if (history.filter HistoryEvent.isToolCall).any (fun c => c.eid == tid)
            && !(claimedStrict.contains tid) then
          e :: claimOrphanGo history rest (tid :: claimedStrict) claimedLegacy
        else claimOrphanGo history rest claimedStrict claimedLegacy
      | none =>
        match (history.filter HistoryEvent.isToolCall).find? (fun c =>
            c.toolName == e.toolName && decide (c.ets < e.ets) &&
            !(reservedByStrict history c) && !(claimedLegacy.contains c.eid)) with
        | some c =>
          e :: claimOrphanGo history rest claimedStrict (c.eid :: claimedLegacy)
        | none => claimOrphanGo history rest claimedStrict claimedLegacy
    else e :: claimOrphanGo history rest claimedStrict claimedLegacy

/-- The claim's description of the whole filter. -/
def claimOrphanFilter (history : List HistoryEvent) : List HistoryEvent :=
  claimOrphanGo history history [] []

-- ---------------------------------------------------------------------------
-- Invalid tool-call filtering and request construction (src/geminiAgent.ts)
-- ---------------------------------------------------------------------------

/-- The source's `!e.modelMetadata?.thoughtSignature?.trim()` guard, as a
positive check: the metadata is present, its `thoughtSignature` is present,
and trimming it leaves a non-empty string.  `String.trim` models the JS
`trim()` (both strip leading/trailing whitespace). -/
def hasValidThoughtSignature : Option GeminiMetadata → Bool
  | some md =>
    match md.thoughtSignature with
    | some s => !(s.trim == "")
    | none => false
  | none => false

/-- `filterInvalidToolCalls` from `src/geminiAgent.ts`: drop `tool_call`
events whose `thoughtSignature` is missing or trims to empty. -/
def filterInvalidToolCalls (history : List HistoryEvent) : List HistoryEvent :=
  history.filter (fun e => !(e.isToolCall && !hasValidThoughtSignature e.meta?))

/-- `isUnsupportedGeminiMimeType` from `src/geminiAgent.ts` (the argument is
a string here since every attachment carries one; the source's
`!mimeType` check corresponds to the empty string). -/
def isUnsupportedGeminiMimeType (mimeType : String) : Bool :=
  if mimeType == "" then true
  else
    let normalized := mimeType.trim.toLower
    if normalized == "" then true
    else normalized == "application/octet-stream"

/-- Replace the `attachments` field of an event (only variants that carry
the field change; the others are returned as-is, mirroring the source's
`if (!("attachments" in event)) return event`). -/
def HistoryEvent.setAttachments (e : HistoryEvent)
    (a : Option (List MediaAttachment)) : HistoryEvent :=
  match e with
  | .participant_utterance i t n x _ => .participant_utterance i t n x a
  | .own_utterance i t x _ m => .own_utterance i t x a m
  | .participant_edit_message i t n x om _ =>
      .participant_edit_message i t n x om a
  | .own_edit_message i t x om _ m => .own_edit_message i t x om a m
  | .tool_result i t n r tid _ => .tool_result i t n r tid a
  | ev => ev

/-- The per-event body of `filterUnsupportedGeminiAttachments`: drop
attachments with unsupported mime types (the field becomes `undefined` when
nothing is left; events without attachments pass through).  The
`console.warn` is a no-op here. -/
def stripUnsupportedAtts (event : HistoryEvent) : HistoryEvent :=
  if !event.hasAttachmentsField then event
  else
    let attachments := event.attachments?.getD []
    if attachments.length = 0 then event
    else
      let kept := attachments.filter
        (fun att => !isUnsupportedGeminiMimeType att.mimeType)
      if kept.length = attachments.length then event
      else event.setAttachments (if kept.length = 0 then none else some kept)

/-- `filterUnsupportedGeminiAttachments` from `src/geminiAgent.ts`. -/
def filterUnsupportedGeminiAttachments (history : List HistoryEvent) :
    List HistoryEvent :=
  history.map stripUnsupportedAtts

/-- The `functionCall` payload of a request `Part`
(`{name: e.name, args: isRecord(e.parameters) ? e.parameters : {}}`);
`emptyRecordParams` stands for the `{}` fallback. -/
structure FunctionCallPart where
  name : String
  args : JsParams
deriving DecidableEq

def emptyRecordParams : JsParams := { isRec := true, json := some "\x7b\x7d" }

/-- The `functionResponse` payload of a request `Part`. -/
structure FunctionResponsePart where
  name : String
  result : String
deriving DecidableEq

/-- A Gemini request `Part` (from `@google/genai`), restricted to the fields
the adapter writes: optional text, thought signature, function call, inline
data `(data, mimeType)`, file data `(fileUri, mimeType)` and function
response. -/
structure ReqPart where
  text : Option String := none
  thoughtSignature : Option String := none
  functionCall : Option FunctionCallPart := none
  inlineData : Option (String × String) := none
  fileData : Option (String × String) := none
  functionResponse : Option FunctionResponsePart := none
deriving DecidableEq

/-- A Gemini request `Content`: a role (`"user"` or `"model"`) plus parts. -/
structure Content where
  role : String
  parts : List ReqPart
deriving DecidableEq

/-- `attachmentsToParts` from `src/geminiAgent.ts`: each attachment becomes a
media part, followed by a caption text part when the caption trims non-empty. -/
def attachmentsToParts (attachments : Option (List MediaAttachment)) :
    List ReqPart :=
  (attachments.getD []).flatMap (fun a =>
    let mediaPart : ReqPart :=
      match a with
      | .inlineAtt m d _ => { inlineData := some (d, m) }
      | .fileAtt m u _ => { fileData := some (u, m) }
    match a.caption with
    | some c => if !(c.trim == "") then [mediaPart, { text := some c }]
                else [mediaPart]
    | none => [mediaPart])

/-- `"text" in msg ? msg.text : ...` — the `text` field of the variants that
have one. -/
def HistoryEvent.textField? : HistoryEvent → Option String
  | .participant_utterance _ _ _ t _ => some t
  | .own_utterance _ _ t _ _ => some t
  | .participant_edit_message _ _ _ t _ _ => some t
  | .own_edit_message _ _ t _ _ _ => some t
  | .own_thought _ _ t _ => some t
  | _ => none

/-- `referencedMessageText` from `src/geminiAgent.ts` (looks up the
referenced message and reads its `text` field, else `""`). -/
def referencedMessageText (eventById : String → Option HistoryEvent)
    (onMessage : String) : String :=
  match eventById onMessage with
  | some m => (m.textField?).getD ""
  | none => ""

/-- `e.modelMetadata?.thoughtSignature`. -/
def thoughtSigOf (e : HistoryEvent) : Option String :=
  e.meta?.bind (fun m => m.thoughtSignature)

/-- `wrapRole("model")` / `wrapRole("user")`. -/
def wrapModelContent (parts : List ReqPart) : Content := { role := "model", parts }

def wrapUserContent (parts : List ReqPart) : Content := { role := "user", parts }

/-- `historyEventToContent` from `src/geminiAgent.ts`.  The timestamp
formatter (`toLocaleString` with an IANA timezone in the source) is an
opaque parameter `fmtTs`; `stampText` prefixes the formatted timestamp. -/
def historyEventToContent (eventById : String → Option HistoryEvent)
    (fmtTs : Int → String) (e : HistoryEvent) : Content :=
  let getRefText := referencedMessageText eventById
  let stampText := fun (text : String) => "[" ++ fmtTs e.ets ++ "] " ++ text
  match e with
  | .participant_utterance _ _ name text atts =>
    let t := if !(text == "") then name ++ ": " ++ text else ""
    wrapUserContent
      ((if !(t == "") then [({ text := some (stampText t) } : ReqPart)] else [])
        ++ attachmentsToParts atts)
  | .participant_edit_message _ _ name text onMessage atts =>
    let t := name ++ " edited message \"" ++ (getRefText onMessage).take 100
      ++ "\" to: " ++ text
    wrapUserContent
      ((if !(t == "") then [({ text := some (stampText t) } : ReqPart)] else [])
        ++ attachmentsToParts atts)
  | .own_utterance _ _ text atts m =>
    let sig := m.bind (fun md => md.thoughtSignature)
    let parts :=
      (if !(text == "")
        then [({ thoughtSignature := sig, text := some text } : ReqPart)] else [])
      ++ (if (atts.getD []).length ≠ 0 ∧ atts.isSome
          then attachmentsToParts atts else [])
    wrapModelContent
      (if parts.length ≠ 0 then parts
        else [{ thoughtSignature := sig, text := some "" }])
  | .own_edit_message _ _ text onMessage atts m =>
    let sig := m.bind (fun md => md.thoughtSignature)
    let t := "You edited message \"" ++ (getRefText onMessage).take 100
      ++ "\" to: " ++ text
    let parts :=
      (if !(t == "")
        then [({ thoughtSignature := sig, text := some t } : ReqPart)] else [])
      ++ (if (atts.getD []).length ≠ 0 ∧ atts.isSome
          then attachmentsToParts atts else [])
    wrapModelContent
      (if parts.length ≠ 0 then parts
        else [{ thoughtSignature := sig, text := some "" }])
  | .tool_call _ _ name params m =>
    wrapModelContent
      [{ thoughtSignature := m.bind (fun md => md.thoughtSignature),
         functionCall := some
           { name,
             args := match params with
               | some p => if p.isRec then p else emptyRecordParams
               | none => emptyRecordParams } }]
  | .tool_result _ _ name result _ atts =>
    wrapUserContent
      ([({ functionResponse :=
            some { name, result := stampText result } } : ReqPart)]
        ++ attachmentsToParts atts)
  | .own_thought _ _ text _ =>
    wrapUserContent
      [{ text := some (stampText
          ("[Internal thought, visible only to you: " ++ text ++ "]")) }]
  | .own_reaction _ _ reaction onMessage m =>
    wrapModelContent
      [{ thoughtSignature := m.bind (fun md => md.thoughtSignature),
         text := some ("You reacted " ++ reaction ++ " to message: "
           ++ (getRefText onMessage).take 100) }]
  | .participant_reaction _ _ name reaction onMessage =>
    wrapUserContent
      [{ text := some (name ++ " reacted " ++ reaction ++ " to message: "
           ++ (getRefText onMessage).take 100) }]
  | .do_nothing _ _ _ m =>
    wrapModelContent
      [{ text := some "",
         thoughtSignature := m.bind (fun md => md.thoughtSignature) }]

/-- `combineContent` from `src/geminiAgent.ts`. -/
def combineContent (contents : List Content) : Content :=
  { role := if contents.any (fun c => c.role == "model") then "model"
            else "user",
    parts := contents.flatMap (fun c => c.parts) }

/-- `"modelMetadata" in e` — the variants whose constructors include the key. -/
def HistoryEvent.hasMetaField : HistoryEvent → Bool
  | .own_utterance _ _ _ _ _ => true
  | .own_edit_message _ _ _ _ _ _ => true
  | .own_reaction _ _ _ _ _ => true
  | .tool_call _ _ _ _ _ => true
  | .own_thought _ _ _ _ => true
  | .do_nothing _ _ _ _ => true
  | _ => false

/-- `getOriginalId` from `src/geminiAgent.ts`:
`"modelMetadata" in e ? e.modelMetadata?.responseId ?? e.id : e.id`. -/
def getOriginalId (e : HistoryEvent) : String :=
  if e.hasMetaField then
    match e.meta? with
    | some m => m.responseId
    | none => e.eid
  else e.eid

/-- Keys of gamla's `groupBy` in first-occurrence order (JS object insertion
order; the corner case of integer-like keys iterating first is not modelled —
none of the verified properties depend on group order). -/
def groupKeysInOrder (key : HistoryEvent → String)
    (events : List HistoryEvent) : List String :=
  events.foldl
    (fun ks e => if ks.contains (key e) then ks else ks ++ [key e]) []

/-- `pipe(groupBy(getOriginalId), Object.values)`: the groups, in key order,
each group listing its events in history order. -/
def groupByOrdered (key : HistoryEvent → String)
    (events : List HistoryEvent) : List (List HistoryEvent) :=
  (groupKeysInOrder key events).map
    (fun k => events.filter (fun e => key e == k))

/-- `indexById` from `src/geminiAgent.ts` (first event with the id). -/
def indexById (events : List HistoryEvent) (i : String) :
    Option HistoryEvent :=
  events.find? (fun e => e.eid == i)

/-- `fixStart` from `src/geminiAgent.ts`: prepend a synthetic
`<conversation started>` user turn when the history is empty or opens with a
non-user turn. -/
def fixStart (history : List Content) : List Content :=
  match history with
  | [] => [wrapUserContent [{ text := some "<conversation started>" }]]
  | c :: _ =>
    if !(c.role == "user")
    then wrapUserContent [{ text := some "<conversation started>" }] :: history
    else history

/-- Gemini model version constants from `src/gemini.ts`. -/
def geminiProVersion : String := "gemini-3.1-pro-preview"

def geminiFlashVersion : String := "gemini-3-flash-preview"

def geminiFlashImageVersion : String := "gemini-2.5-flash-image"

def geminiProImageVersion : String := "gemini-3-pro-image-preview"

/-- A Gemini request (`GenerateContentParameters`), restricted to the fields
the adapter writes.  Tool declarations are abstracted to their names (the
JSON-schema rendering by `zodToGeminiParameters` is an external collaborator). -/
structure GenerateContentParameters where
  model : String
  systemInstruction : String
  toolNames : List String
  maxOutputTokens : Option Nat
  contents : List Content
deriving DecidableEq

/-- `buildReq` from `src/geminiAgent.ts`. -/
def buildReq (imageGen : Bool) (lightModel : Bool) (prompt : String)
    (toolNames : List String) (fmtTs : Int → String)
    (maxOutputTokens : Option Nat) (events : List HistoryEvent) :
    GenerateContentParameters :=
  { model :=
      if imageGen then
        (if lightModel then geminiFlashImageVersion else geminiProImageVersion)
      else (if lightModel then geminiFlashVersion else geminiProVersion),
    systemInstruction := prompt,
    toolNames := toolNames,
    maxOutputTokens := maxOutputTokens,
    contents := fixStart ((groupByOrdered getOriginalId events).map
      (fun grp =>
        combineContent (grp.map (historyEventToContent (indexById events) fmtTs)))) }

/-- All parts of a request, in order. -/
def partsOfReq (req : GenerateContentParameters) : List ReqPart :=
  req.contents.flatMap (fun c => c.parts)

/-- A thought signature that is present and trims non-empty. -/
def sigTrimNonempty : Option String → Bool
  | some s => !(s.trim == "")
  | none => false

/-- Claim-side wording for C10: a `tool_call` whose
`modelMetadata.thoughtSignature` is absent, empty, or whitespace-only. -/
def claimInvalidToolCall (e : HistoryEvent) : Bool :=
  e.isToolCall && !sigTrimNonempty (thoughtSigOf e)

/-- A request part is acceptable for C10 when it either carries no function
call, or its thought signature is present and trims non-empty. -/
def fcPartSigOk (p : ReqPart) : Bool :=
  !p.functionCall.isSome || sigTrimNonempty p.thoughtSignature

-- ---------------------------------------------------------------------------
-- Gemini output mapping (src/geminiAgent.ts, rawCallGemini … geminiAgentCaller)
-- ---------------------------------------------------------------------------

/-- `GeminiPartOfInterest` from `src/geminiAgent.ts`: the typed parts
`rawCallGemini` extracts from a provider response. -/
inductive GeminiPartOfInterest
  | textPart (text : String) (thoughtSignature : Option String)
  | functionCallPart (id : Option String) (name : Option String)
      (args : Option JsParams) (thoughtSignature : Option String)
  | inlineDataPart (dat : Option String) (mimeType : Option String)
      (thoughtSignature : Option String)
  | fileDataPart (fileUri : Option String) (mimeType : Option String)
      (thoughtSignature : Option String)
deriving DecidableEq

def GeminiOutput := List GeminiPartOfInterest

/-- The characters removed by `didNothing`'s
`replace(/[\s​‌‍﻿]/g, "")`: JS `\s` (whitespace
including unicode spaces) plus zero-width characters. -/
def isStrippedByDidNothing (c : Char) : Bool :=
  c.isWhitespace || c = '\x0b' || c = '\x0c' || c = ' ' ||
  c = ' ' || (' ' ≤ c && c ≤ ' ') || c = ' ' ||
  c = ' ' || c = ' ' || c = ' ' || c = '　' ||
  c = '﻿' || c = '​' || c = '‌' || c = '‍'

/-- `sawFunction` from `src/geminiAgent.ts`. -/
def sawFunction (output : List GeminiPartOfInterest) : Bool :=
  output.any (fun p =>
    match p with
    | .functionCallPart _ _ _ _ => true
    | _ => false)

/-- `didNothing` from `src/geminiAgent.ts`: true when there is no function
call, no inline data, no file data and no text part that remains non-empty
after stripping whitespace/zero-width characters. -/
def didNothing (output : List GeminiPartOfInterest) : Bool :=
  !sawFunction output &&
  !output.any (fun p =>
    match p with
    | .textPart t _ => !(t.toList.filter (fun c => !isStrippedByDidNothing c)).isEmpty
    | .inlineDataPart _ _ _ => true
    | .fileDataPart _ _ _ => true
    | _ => false)

/-- `geminiOutputPartToHistoryEvent` from `src/geminiAgent.ts`.  The injected
id/timestamp generators are explicit (`idGen`/`tsGen`, consumed at index
`n`); `coerce` on a missing function-call name throws (`Except.error`).  The
metadata's `thoughtSignature` falls back to `""` (`?? ""`), matching the
source. -/
def geminiOutputPartToHistoryEvent (idGen : Nat → String) (tsGen : Nat → Int)
    (responseId : String) (n : Nat) :
    GeminiPartOfInterest → Except String HistoryEvent
  | .textPart t sig =>
    .ok (.own_utterance (idGen n) (tsGen n) t none
      (some ⟨responseId, some (sig.getD "")⟩))
  | .functionCallPart _ name args sig =>
    match name with
    | some nm =>
      .ok (.tool_call (idGen n) (tsGen n) nm args
        (some ⟨responseId, some (sig.getD "")⟩))
    | none => .error "coerce failed: function call name is nullish"
  | .inlineDataPart dat mimeType sig =>
    match dat with
    | some d =>
      .ok (.own_utterance (idGen n) (tsGen n) ""
        (some [.inlineAtt (mimeType.getD "application/octet-stream") d none])
        (some ⟨responseId, some (sig.getD "")⟩))
    | none =>
      .ok (.own_utterance (idGen n) (tsGen n) "" none
        (some ⟨responseId, some ""⟩))
  | .fileDataPart fileUri mimeType sig =>
    match fileUri with
    | some u =>
      .ok (.own_utterance (idGen n) (tsGen n) ""
        (some [.fileAtt (mimeType.getD "application/octet-stream") u none])
        (some ⟨responseId, some (sig.getD "")⟩))
    | none =>
      .ok (.own_utterance (idGen n) (tsGen n) "" none
        (some ⟨responseId, some ""⟩))

/-- `geminiOutput.map(geminiOutputPartToHistoryEvent(responseId))`, threading
the generator supply. -/
def mapGeminiParts (idGen : Nat → String) (tsGen : Nat → Int)
    (responseId : String) : Nat → List GeminiPartOfInterest →
    Except String (List HistoryEvent)
  | _, [] => .ok []
  | n, p :: rest => do
    let e ← geminiOutputPartToHistoryEvent idGen tsGen responseId n p
    let es ← mapGeminiParts idGen tsGen responseId (n + 1) rest
    .ok (e :: es)

/-- The source's `output.find(p => p.type === "text" && p.thoughtSignature)`:
first text part whose thought signature is present and non-empty. -/
def findSignedTextPart (output : List GeminiPartOfInterest) :
    Option GeminiPartOfInterest :=
  output.find? (fun p =>
    match p with
    | .textPart _ (some s) => !(s == "")
    | _ => false)

/-- The output-mapping step of `geminiAgentCaller` (`src/geminiAgent.ts`):
generate a `responseId`, emit a single `do_nothing` event (carrying the
first signed text part's signature, if any) when `didNothing`, else map each
part to a history event. -/
def mapGeminiOutput (idGen : Nat → String) (tsGen : Nat → Int) (n : Nat)
    (geminiOutput : List GeminiPartOfInterest) :
    Except String (List HistoryEvent) :=
  let responseId := idGen n
  if didNothing geminiOutput then
    .ok [.do_nothing (idGen (n + 1)) (tsGen (n + 1)) true
      (match findSignedTextPart geminiOutput with
       | some (.textPart _ sig) => some ⟨responseId, sig⟩
       | _ => none)]
  else mapGeminiParts idGen tsGen responseId (n + 1) geminiOutput

/-- Claim-side description of the `do_nothing` continuation metadata: the
signature of the first text part that carries a non-empty one, when present. -/
def claimDoNothingMeta (responseId : String)
    (output : List GeminiPartOfInterest) : Option GeminiMetadata :=
  match findSignedTextPart output with
  | some (.textPart _ sig) => some ⟨responseId, sig⟩
  | _ => none

-- ---------------------------------------------------------------------------
-- Tool dispatch (src/agent.ts, callToResult)
-- ---------------------------------------------------------------------------

/-- The runtime value returned by a tool handler, as classified by
`toolReturnSchema` (`z.union([z.string(), z.object({result, attachments?})])`):
a plain string, an object matching the declared return shape, or anything
else (which fails validation). -/
inductive ToolReturnValue
  | strRet (s : String)
  | objRet (result : String) (attachments : Option (List MediaAttachment))
  | invalidRet
deriving DecidableEq

/-- A declared tool.  `parseParams` is the tool's zod parameter-schema
validation (`parameters.parse(args)`), an external collaborator modelled as
an oracle attached to the tool: `Except.error` carries the serialised
validation error (`JSON.stringify(parseResult.error)`).  `handler` is the
tool's (awaited) handler. -/
structure LTool where
  name : String
  description : String := ""
  parseParams : Option JsParams → Except String (Option JsParams)
  handler : Option JsParams → ToolReturnValue

/-- A provider `FunctionCall` (`{id?, args?, name?}`). -/
structure FunctionCall where
  id : Option String
  args : Option JsParams
  name : Option String

/-- The normalized dispatch result `{toolCallId, name, result, attachments?}`. -/
structure DispatchResult where
  toolCallId : Option String
  name : String
  result : String
  attachments : Option (List MediaAttachment)
deriving DecidableEq

/-- JS falsiness of the optional `name` (`!name`): absent or empty string. -/
def jsFalsyName : Option String → Bool
  | none => true
  | some s => s == ""

/-- `callToResult` from `src/agent.ts` (the current variant, with
`toolCallId` and return-shape validation).  Exactly as in the source, the
tool lookup happens before the `!name` check; a missing (or empty, hence
falsy) name throws; a missing tool or invalid arguments resolve to
human-readable result strings; a handler return value failing
`toolReturnSchema` throws (the serialised zod error in the message is
abstracted away); valid returns are normalized. -/
def callToResult (actions : List LTool) (fc : FunctionCall) :
    Except String DispatchResult :=
  let toolCallId := fc.id
  let action? := actions.find? (fun t => fc.name == some t.name)
  if jsFalsyName fc.name then .error "Function call name is missing"
  else
    let name := fc.name.getD ""
    match action? with
    | none => .ok ⟨toolCallId, name, "Function " ++ name ++ " not found", none⟩
    | some action =>
      match action.parseParams fc.args with
      | .error err =>
        .ok ⟨toolCallId, name, "Invalid arguments: " ++ err, none⟩
      | .ok parsed =>
        match action.handler parsed with
        | .strRet s => .ok ⟨toolCallId, name, s, none⟩
        | .objRet r atts => .ok ⟨toolCallId, name, r, atts⟩
        | .invalidRet =>
          .error ("Tool \"" ++ name ++ "\" handler returned invalid value")

/-- Demo tool whose parameter validation always fails. -/
def demoFailParseTool : LTool :=
  { name := "t", parseParams := fun _ => .error "boom",
    handler := fun _ => .strRet "ok" }

/-- Demo tool whose handler returns a value violating the return schema. -/
def demoBadReturnTool : LTool :=
  { name := "bad", parseParams := fun a => .ok a,
    handler := fun _ => .invalidRet }

/-- Demo tool whose handler returns a plain string. -/
def demoStrReturnTool : LTool :=
  { name := "good", parseParams := fun a => .ok a,
    handler := fun _ => .strRet "done" }

-- ---------------------------------------------------------------------------
-- Agent loop (src/agent.ts, runAbstractAgent / handleFunctionCalls)
-- ---------------------------------------------------------------------------

/-- `event.parameters` of a `tool_call`. -/
def HistoryEvent.toolParams : HistoryEvent → Option JsParams
  | .tool_call _ _ _ p _ => p
  | _ => none

/-- The loop's external collaborators, as pure oracles: `callModel` maps the
history read at the start of an iteration to the adapter's output events
(the model call itself is deterministic relative to the history in this
embedding; the spec's tolerated concurrent appends are outside the shallow
embedding), and `idGen`/`tsGen` are the injected id/timestamp generators
consumed by `toolResultTurn`. -/
structure AgentEnv where
  callModel : List HistoryEvent → List HistoryEvent
  idGen : Nat → String
  tsGen : Nat → Int

/-- The externally-owned history plus the generator supply. -/
structure LoopState where
  history : List HistoryEvent
  fresh : Nat
deriving DecidableEq

/-- `handleFunctionCalls` from `src/agent.ts`: for every `tool_call` among
the output events, in order, dispatch it via `callToResult` and append the
`toolResultTurn` event.  A dispatch throw aborts, keeping the
already-appended results (`some msg`). -/
def dispatchCalls (env : AgentEnv) (tools : List LTool) :
    List HistoryEvent → LoopState → LoopState × Option String
  | [], st => (st, none)
  | e :: rest, st =>
    if e.isToolCall then
      match callToResult tools
          { id := some e.eid, args := e.toolParams, name := some e.toolName } with
      | .error msg => (st, some msg)
      | .ok r =>
        dispatchCalls env tools rest
          { history := st.history ++
              [.tool_result (env.idGen st.fresh) (env.tsGen st.fresh)
                r.name r.result r.toolCallId r.attachments],
            fresh := st.fresh + 1 }
    else dispatchCalls env tools rest st

/-- Terminal outcome of a run. -/
inductive RunStatus
  | finished (history : List HistoryEvent)
  | capReached (history : List HistoryEvent)
  | failed (msg : String) (history : List HistoryEvent)
deriving DecidableEq

def RunStatus.isCap : RunStatus → Bool
  | .capReached _ => true
  | _ => false

/-- Observable outcome of `runAbstractAgent`: total number of model calls,
number of `onMaxIterationsReached` invocations, and the terminal status
(`failed` models a rejected promise). -/
structure RunResult where
  modelCalls : Nat
  callbacks : Nat
  status : RunStatus
deriving DecidableEq

/-- The termination check at the end of an iteration, on the last event of
the re-read history (`undefined` when the history is empty, making the
`.isOwn` access throw): finish when self-authored, else continue via `cont`. -/
def finishOrLoop (cont : LoopState → Nat → RunResult) (calls : Nat)
    (st2 : LoopState) : Option HistoryEvent → RunResult
  | some e =>
    if e.isOwnB then
      { modelCalls := calls + 1, callbacks := 0, status := .finished st2.history }
    else cont st2 (calls + 1)
  | none =>
    { modelCalls := calls + 1, callbacks := 0,
      status := .failed "TypeError: cannot read isOwn of undefined" st2.history }

/-- What an iteration does with the outcome of `dispatchCalls`: a dispatch
throw rejects the run; otherwise loop if a `tool_call` was produced, else
run the termination check. -/
def afterDispatch (cont : LoopState → Nat → RunResult) (calls : Nat)
    (output : List HistoryEvent) : LoopState × Option String → RunResult
  | (st2, some msg) =>
    { modelCalls := calls + 1, callbacks := 0, status := .failed msg st2.history }
  | (st2, none) =>
    if output.any HistoryEvent.isToolCall then cont st2 (calls + 1)
    else finishOrLoop cont calls st2 st2.history.getLast?

/-- The `while (true)` loop of `runAbstractAgent`, with the remaining
iteration budget `maxIterations - (c - 1)` as fuel: when the incremented
counter exceeds `maxIterations` (fuel `0`), invoke the callback once and
return; otherwise read history, call the model, append the output, dispatch
tool calls, and stop when no `tool_call` was produced and the re-read
history's last event is self-authored.  `last` of an empty array is
`undefined` in JS, so the subsequent `.isOwn` access throws a `TypeError`
(`failed`). -/
def runAgentLoop (env : AgentEnv) (tools : List LTool) :
    Nat → LoopState → Nat → RunResult
  | 0, st, calls =>
    { modelCalls := calls, callbacks := 1, status := .capReached st.history }
  | (n + 1), st, calls =>
    let output := env.callModel st.history
    afterDispatch (runAgentLoop env tools n) calls output
      (dispatchCalls env tools output { st with history := st.history ++ output })

/-- `runAbstractAgent` from `src/agent.ts` (tools = caller tools merged with
any skill tools). -/
def runAbstractAgent (env : AgentEnv) (tools : List LTool)
    (maxIterations : Nat) (initialHistory : List HistoryEvent) : RunResult :=
  runAgentLoop env tools maxIterations ⟨initialHistory, 0⟩ 0

/-- The claim's description of what the loop does after one iteration. -/
inductive IterDecision
  | finishTurn
  | continueLoop
  | crash
deriving DecidableEq

/-- Claim-side (amended) decision rule: continue when the output contained a
`tool_call`; otherwise finish iff the last event of the re-read history is
self-authored; with an empty re-read history the run crashes instead. -/
def claimNextAction (output histAfter : List HistoryEvent) : IterDecision :=
  if output.any HistoryEvent.isToolCall then .continueLoop
  else
    match histAfter.getLast? with
    | some e => if e.isOwnB then .finishTurn else .continueLoop
    | none => .crash

-- ---------------------------------------------------------------------------
-- Error recovery (src/geminiAgent.ts, stripAll* / callGeminiWithFixHistory)
-- ---------------------------------------------------------------------------

/-- A Gemini provider error.  The source classifies errors by HTTP status
and by regex/substring matching on `error.message`
(`extractFileIdFromError`, `isFileNotActiveError`,
`isUnsupportedMimeTypeError` / `extractUnsupportedMimeType`,
`is403PermissionError`); matching on the opaque provider message string is
abstracted into precomputed fields carrying each matcher's result. -/
structure GemErrorInfo where
  status : Option Int
  notActive : Bool
  unsupportedMimeErr : Bool
  unsupportedMime : Option String
  perm403msg : Bool
  fileId : Option String
deriving DecidableEq

/-- `is500Error`: the error carries `status === 500`. -/
def is500Error (e : GemErrorInfo) : Bool := e.status == some 500

/-- `is403PermissionError`: `status === 403`, or the message mentions both
`403` and `PERMISSION_DENIED`. -/
def is403PermissionError (e : GemErrorInfo) : Bool :=
  e.status == some 403 || e.perm403msg

def isFileNotActiveError (e : GemErrorInfo) : Bool := e.notActive

def isUnsupportedMimeTypeError (e : GemErrorInfo) : Bool := e.unsupportedMimeErr

/-- `pat` occurs at the head of `s` (over character lists). -/
def leadingMatch : List Char → List Char → Bool
  | [], _ => true
  | _ :: _, [] => false
  | c :: cs, d :: ds => c == d && leadingMatch cs ds

/-- `pat` occurs somewhere in `s` (over character lists). -/
def hasSubChars (pat : List Char) : List Char → Bool
  | [] => pat.isEmpty
  | c :: rest => leadingMatch pat (c :: rest) || hasSubChars pat rest

/-- JS `String.prototype.includes` (true for the empty needle). -/
def jsIncludes (s pat : String) : Bool :=
  hasSubChars pat.toList s.toList

/-- `a.caption || a.mimeType`. -/
def captionOrMime (a : MediaAttachment) : String :=
  match a.caption with
  | some c => if c == "" then a.mimeType else c
  | none => a.mimeType

/-- `getExpiredMediaText` from `src/geminiAgent.ts`. -/
def getExpiredMediaText (attachments : List MediaAttachment) : String :=
  if attachments.length ≠ 0 then
    " <media file expired: "
      ++ String.intercalate ", " (attachments.map captionOrMime) ++ ">"
  else ""

/-- An attachment that is a `file` whose `fileUri` contains `fileId`. -/
def attMatchesFile (fileId : String) (att : MediaAttachment) : Bool :=
  match att with
  | .fileAtt _ u _ => jsIncludes u fileId
  | .inlineAtt _ _ _ => false

/-- `hasFileAttachment` from `src/geminiAgent.ts`. -/
def hasFileAttachment (fileId : String) (event : HistoryEvent) : Bool :=
  event.hasAttachmentsField &&
  (event.attachments?.getD []).any (attMatchesFile fileId)

/-- The attachments kept by `stripFileFromEvent`: inline ones, and file ones
whose uri does not contain the id. -/
def keepAfterStrip (fileId : String) :
    Option (List MediaAttachment) → Option (List MediaAttachment)
  | some l =>
    some (l.filter (fun att =>
      match att with
      | .inlineAtt _ _ _ => true
      | .fileAtt _ u _ => !(jsIncludes u fileId)))
  | none => none

/-- `stripFileFromEvent` from `src/geminiAgent.ts`: append the placeholder
to the event's `result` (tool results) or `text` (other variants with
attachments) and drop the matching file attachments.  Variants without an
`attachments` field are untouched (the source's type restricts the function
to `EventWithAttachments`). -/
def stripFileFromEvent (fileId placeholder : String) :
    HistoryEvent → HistoryEvent
  | .participant_utterance i t n x a =>
    .participant_utterance i t n (x ++ placeholder) (keepAfterStrip fileId a)
  | .own_utterance i t x a m =>
    .own_utterance i t (x ++ placeholder) (keepAfterStrip fileId a) m
  | .participant_edit_message i t n x om a =>
    .participant_edit_message i t n (x ++ placeholder) om
      (keepAfterStrip fileId a)
  | .own_edit_message i t x om a m =>
    .own_edit_message i t (x ++ placeholder) om (keepAfterStrip fileId a) m
  | .tool_result i t n r tid a =>
    .tool_result i t n (r ++ placeholder) tid (keepAfterStrip fileId a)
  | e => e

/-- Append a placeholder note to `result`/`text` and replace the attachments
(the `{...event, ...(tool_result ? {result: …} : {text: …}), attachments}`
update used by `stripAttachmentsByMimeType` and `stripAllFileAttachments`). -/
def appendNoteSetAtts (placeholder : String)
    (a : Option (List MediaAttachment)) : HistoryEvent → HistoryEvent
  | .participant_utterance i t n x _ =>
    .participant_utterance i t n (x ++ placeholder) a
  | .own_utterance i t x _ m => .own_utterance i t (x ++ placeholder) a m
  | .participant_edit_message i t n x om _ =>
    .participant_edit_message i t n (x ++ placeholder) om a
  | .own_edit_message i t x om _ m =>
    .own_edit_message i t (x ++ placeholder) om a m
  | .tool_result i t n r tid _ => .tool_result i t n (r ++ placeholder) tid a
  | e => e

/-- `replaceFileWithProcessingPlaceholder` from `src/geminiAgent.ts`. -/
def replaceFileWithProcessingPlaceholder (fileId : String)
    (events : List HistoryEvent) : List HistoryEvent :=
  events.map (fun e =>
    if hasFileAttachment fileId e then
      stripFileFromEvent fileId
        " <user sent a file which is still being processed>" e
    else e)

/-- `handleFileNotActiveError` from `src/geminiAgent.ts`. -/
def handleFileNotActiveError (error : GemErrorInfo)
    (events : List HistoryEvent) : Option (List HistoryEvent) :=
  if !isFileNotActiveError error then none
  else
    match error.fileId with
    | none => none
    | some fid => some (replaceFileWithProcessingPlaceholder fid events)

/-- `stripExpiredFile` from `src/geminiAgent.ts`: build the replacement map
(event id ↦ stripped event, last entry winning like a JS object) and the
updated history. -/
def stripExpiredFile (error : GemErrorInfo) (events : List HistoryEvent) :
    Option (List HistoryEvent × List (String × HistoryEvent)) :=
  match error.fileId with
  | none => none
  | some fid =>
    let replacements := (events.filter (hasFileAttachment fid)).map
      (fun event =>
        let placeholder := getExpiredMediaText
          ((event.attachments?.getD []).filter (attMatchesFile fid))
        (event.eid, stripFileFromEvent fid placeholder event))
    some
      (events.map (fun e =>
        match replacements.reverse.find? (fun kv => kv.1 == e.eid) with
        | some kv => kv.2
        | none => e),
       replacements)

/-- `stripAttachmentsByMimeType`'s per-event update (`none` = unchanged). -/
def stripByMime (mimeType : String) (event : HistoryEvent) :
    Option HistoryEvent :=
  if !event.hasAttachmentsField then none
  else
    match event.attachments? with
    | none => none
    | some atts =>
      let kept := atts.filter (fun att => !(att.mimeType == mimeType))
      if kept.length = atts.length then none
      else
        some (appendNoteSetAtts
          (" <unsupported file type removed: " ++ mimeType ++ ">")
          (if kept.length = 0 then none else some kept) event)

/-- `stripAttachmentsByMimeType` from `src/geminiAgent.ts`. -/
def stripAttachmentsByMimeType (mimeType : String)
    (events : List HistoryEvent) :
    List HistoryEvent × List (String × HistoryEvent) :=
  (events.map (fun e => (stripByMime mimeType e).getD e),
   events.filterMap (fun e =>
     (stripByMime mimeType e).map (fun u => (e.eid, u))))

/-- `stripAllFileAttachments`'s per-event update (`none` = unchanged). -/
def stripAllFilesFromEvent (event : HistoryEvent) : Option HistoryEvent :=
  if !event.hasAttachmentsField then none
  else
    match event.attachments? with
    | none => none
    | some atts =>
      let fileAttachments := atts.filter (fun a => a.isFile)
      if fileAttachments.length = 0 then none
      else
        let kept := atts.filter (fun a => !a.isFile)
        some (appendNoteSetAtts (getExpiredMediaText fileAttachments)
          (if kept.length = 0 then none else some kept) event)

/-- `stripAllFileAttachments` from `src/geminiAgent.ts` (the "nuclear"
fallback). -/
def stripAllFileAttachments (events : List HistoryEvent) :
    List HistoryEvent × List (String × HistoryEvent) :=
  (events.map (fun e => (stripAllFilesFromEvent e).getD e),
   events.filterMap (fun e =>
     (stripAllFilesFromEvent e).map (fun u => (e.eid, u))))

/-- An externally visible action of a recovery loop, in order: a `callGemini`
attempt on a given (repaired) event list, or a `rewriteHistory` invocation
with the accumulated replacements. -/
inductive RecoveryAction
  | providerCall (events : List HistoryEvent)
  | rewriteHist (replacements : List (String × HistoryEvent))
deriving DecidableEq

def RecoveryAction.isCall : RecoveryAction → Bool
  | .providerCall _ => true
  | _ => false

/-- Trace and final outcome of one recovery loop.  The oracle
(`Nat → Except …`) decides the outcome of the k-th `callGemini` attempt. -/
structure RecoveryResult where
  trace : List RecoveryAction
  outcome : Except GemErrorInfo (List GeminiPartOfInterest)

/-- `stripAllNotActiveFiles` from `src/geminiAgent.ts`: up to 5 repair
attempts (`for (let attempt = 0; attempt < 5; …)`) plus a final bare call.
Note it never invokes `rewriteHistory`: the repairs stay in memory only. -/
def stripAllNotActiveFilesGo
    (oracle : Nat → Except GemErrorInfo (List GeminiPartOfInterest)) :
    Nat → Nat → List HistoryEvent → List RecoveryAction → RecoveryResult
  | 0, k, events, trace =>
    { trace := trace ++ [.providerCall events], outcome := oracle k }
  | (fuel + 1), k, events, trace =>
    match oracle k with
    | .ok out => { trace := trace ++ [.providerCall events], outcome := .ok out }
    | .error e =>
      match handleFileNotActiveError e events with
      | none =>
        { trace := trace ++ [.providerCall events], outcome := .error e }
      | some fixed =>
        stripAllNotActiveFilesGo oracle fuel (k + 1) fixed
          (trace ++ [.providerCall events])

def stripAllNotActiveFiles
    (oracle : Nat → Except GemErrorInfo (List GeminiPartOfInterest))
    (events : List HistoryEvent) : RecoveryResult :=
  stripAllNotActiveFilesGo oracle 5 0 events []

/-- `stripAllUnsupportedMimeTypes` from `src/geminiAgent.ts`: strip the
offending mime type, call Gemini, and — only after a successful call —
persist the accumulated replacements via `rewriteHistory`; on a repeated
unsupported-mime error, accumulate and retry (5 attempts), then a final
bare call with no rewrite. -/
def stripAllUnsupportedMimeTypesGo
    (oracle : Nat → Except GemErrorInfo (List GeminiPartOfInterest)) :
    Nat → Nat → GemErrorInfo → List HistoryEvent →
    List (String × HistoryEvent) → List RecoveryAction → RecoveryResult
  | 0, k, _, events, _, trace =>
    { trace := trace ++ [.providerCall events], outcome := oracle k }
  | (fuel + 1), k, currentError, events, allRepl, trace =>
    match currentError.unsupportedMime with
    | none => { trace := trace, outcome := .error currentError }
    | some mimeType =>
      let stripped := stripAttachmentsByMimeType mimeType events
      let allRepl' := allRepl ++ stripped.2
      match oracle k with
      | .ok out =>
        { trace := trace ++ [.providerCall stripped.1, .rewriteHist allRepl'],
          outcome := .ok out }
      | .error err =>
        if !isUnsupportedMimeTypeError err then
          { trace := trace ++ [.providerCall stripped.1],
            outcome := .error err }
        else
          stripAllUnsupportedMimeTypesGo oracle fuel (k + 1) err stripped.1
            allRepl' (trace ++ [.providerCall stripped.1])

def stripAllUnsupportedMimeTypes
    (oracle : Nat → Except GemErrorInfo (List GeminiPartOfInterest))
    (initialError : GemErrorInfo) (events : List HistoryEvent) :
    RecoveryResult :=
  stripAllUnsupportedMimeTypesGo oracle 5 0 initialError events [] []

/-- `stripAllExpiredFiles` from `src/geminiAgent.ts`: strip the file named
in the 403 error (or, if no attachment matches, every file attachment as a
fallback), call Gemini, and — only after a successful call — persist the
accumulated replacements via `rewriteHistory`; on a repeated 403, accumulate
and retry (5 attempts), then a final bare call with no rewrite. -/
def stripAllExpiredFilesGo
    (oracle : Nat → Except GemErrorInfo (List GeminiPartOfInterest)) :
    Nat → Nat → GemErrorInfo → List HistoryEvent →
    List (String × HistoryEvent) → List RecoveryAction → RecoveryResult
  | 0, k, _, events, _, trace =>
    { trace := trace ++ [.providerCall events], outcome := oracle k }
  | (fuel + 1), k, currentError, events, allRepl, trace =>
    match stripExpiredFile currentError events with
    | none => { trace := trace, outcome := .error currentError }
    | some fixed =>
      if fixed.2.length = 0 then
        let nuclear := stripAllFileAttachments events
        let allRepl' := allRepl ++ nuclear.2
        match oracle k with
        | .ok out =>
          { trace := trace ++ [.providerCall nuclear.1, .rewriteHist allRepl'],
            outcome := .ok out }
        | .error err =>
          { trace := trace ++ [.providerCall nuclear.1],
            outcome := .error err }
      else
        let allRepl' := allRepl ++ fixed.2
        match oracle k with
        | .ok out =>
          { trace := trace ++ [.providerCall fixed.1, .rewriteHist allRepl'],
            outcome := .ok out }
        | .error err =>
          if !is403PermissionError err then
            { trace := trace ++ [.providerCall fixed.1],
              outcome := .error err }
          else
            stripAllExpiredFilesGo oracle fuel (k + 1) err fixed.1 allRepl'
              (trace ++ [.providerCall fixed.1])

def stripAllExpiredFiles
    (oracle : Nat → Except GemErrorInfo (List GeminiPartOfInterest))
    (initialError : GemErrorInfo) (events : List HistoryEvent) :
    RecoveryResult :=
  stripAllExpiredFilesGo oracle 5 0 initialError events [] []

/-- Once a `rewriteHistory` action appears in the trace, no further provider
call follows it (so no repair is ever persisted *before* a retried call). -/
def noCallAfterRewrite : List RecoveryAction → Bool
  | [] => true
  | .providerCall _ :: rest => noCallAfterRewrite rest
  | .rewriteHist _ :: rest =>
    rest.all (fun a => !a.isCall)

/-- Number of `rewriteHistory` invocations in a trace. -/
def rewriteCount (tr : List RecoveryAction) : Nat :=
  (tr.filter (fun a => !a.isCall)).length

/-- Concrete inputs for the C1 counterexample: a participant message with a
file attachment whose uri contains `abc123`, a file-not-active error naming
that file, and an oracle whose first call fails with it and whose second
call succeeds. -/
def c1Event : HistoryEvent :=
  .participant_utterance "e1" 0 "u" "hi"
    (some [.fileAtt "video/mp4" "files/abc123" none])

def c1Error : GemErrorInfo :=
  { status := none, notActive := true, unsupportedMimeErr := false,
    unsupportedMime := none, perm403msg := false, fileId := some "abc123" }

def c1Oracle (k : Nat) : Except GemErrorInfo (List GeminiPartOfInterest) :=
  if k = 0 then .error c1Error else .ok []

/-- The event after the not-active repair (placeholder appended, file
attachment stripped). -/
def c1Repaired : HistoryEvent :=
  .participant_utterance "e1" 0 "u"
    "hi <user sent a file which is still being processed>" (some [])

-- ---------------------------------------------------------------------------
-- Retry wrapper (src/geminiAgent.ts, alternateModel / callGemini)
-- ---------------------------------------------------------------------------

/-- `alternateModel` from `src/geminiAgent.ts`: the pro↔flash and
pro-image↔flash-image pairing (identity on any other model string). -/
def alternateModel (model : String) : String :=
  if model == geminiProVersion then geminiFlashVersion
  else if model == geminiFlashVersion then geminiProVersion
  else if model == geminiProImageVersion then geminiFlashImageVersion
  else if model == geminiFlashImageVersion then geminiProImageVersion
  else model

/-- One raw provider call: the request issued and its outcome. -/
structure AttemptRecord where
  req : GenerateContentParameters
  outcome : Except GemErrorInfo (List GeminiPartOfInterest)

/-- Trace of `callGemini`: every `rawCallGemini` attempt in order, the sleeps
performed between retries (milliseconds), and the final result. -/
structure CallTrace where
  attempts : List AttemptRecord
  sleeps : List Nat
  result : Except GemErrorInfo (List GeminiPartOfInterest)

/-- The attempt failed with an error satisfying `pred`. -/
def errSatisfies (pred : GemErrorInfo → Bool) (a : AttemptRecord) : Bool :=
  match a.outcome with
  | .error e => pred e
  | .ok _ => false

/-- Modelled from the spec: gamla's `conditionalRetry(predicate)(intervalMs,
retries, f)` is an external dependency whose source is not part of this
repository.  Per the spec ("retry with backoff (fixed interval, few
attempts)"; "bounded (5 attempts)"), it attempts `f`; on an error satisfying
the predicate it sleeps `intervalMs` and retries, up to `retries` retries
after the initial attempt; an error failing the predicate, or exhausting the
budget, re-raises.  The k-th raw call's outcome is decided by `oracle k`. -/
def conditionalRetryGo (pred : GemErrorInfo → Bool) (intervalMs : Nat)
    (oracle : Nat → GenerateContentParameters →
      Except GemErrorInfo (List GeminiPartOfInterest))
    (req : GenerateContentParameters) :
    Nat → Nat → List AttemptRecord → List Nat → CallTrace
  | 0, k, attempts, sleeps =>
    match oracle k req with
    | .ok out =>
      { attempts := attempts ++ [⟨req, .ok out⟩], sleeps := sleeps,
        result := .ok out }
    | .error e =>
      { attempts := attempts ++ [⟨req, .error e⟩], sleeps := sleeps,
        result := .error e }
  | (r + 1), k, attempts, sleeps =>
    match oracle k req with
    | .ok out =>
      { attempts := attempts ++ [⟨req, .ok out⟩], sleeps := sleeps,
        result := .ok out }
    | .error e =>
      if pred e then
        conditionalRetryGo pred intervalMs oracle req r (k + 1)
          (attempts ++ [⟨req, .error e⟩]) (sleeps ++ [intervalMs])
      else
        { attempts := attempts ++ [⟨req, .error e⟩], sleeps := sleeps,
          result := .error e }

/-- `callGeminiWithRetry = conditionalRetry(is500Error)(1000, 4, rawCallGemini)`
from `src/geminiAgent.ts`. -/
def callGeminiWithRetry
    (oracle : Nat → GenerateContentParameters →
      Except GemErrorInfo (List GeminiPartOfInterest))
    (req : GenerateContentParameters) : CallTrace :=
  conditionalRetryGo is500Error 1000 oracle req 4 0 [] []

/-- `callGemini` from `src/geminiAgent.ts`: the retry wrapper plus, when the
surviving error still has status 500, exactly one extra attempt against the
alternate model. -/
def callGemini
    (oracle : Nat → GenerateContentParameters →
      Except GemErrorInfo (List GeminiPartOfInterest))
    (req : GenerateContentParameters) : CallTrace :=
  let t := callGeminiWithRetry oracle req
  match t.result with
  | .ok _ => t
  | .error err =>
    if !is500Error err then t
    else
      let altReq := { req with model := alternateModel req.model }
      let r2 := oracle t.attempts.length altReq
      { attempts := t.attempts ++ [⟨altReq, r2⟩], sleeps := t.sleeps,
        result := r2 }

/-- `approxTextTokensLen` is monotone (not strictly) in the length. -/
theorem approxTextTokensLen_mono {n m : Nat} (h : n ≤ m) :
    approxTextTokensLen n ≤ approxTextTokensLen m := by
  unfold approxTextTokensLen
  by_cases hn : n = 0
  · simp [hn]
  · have hm : ¬ m = 0 := by omega
    simp only [hn, hm, if_false]
    exact max_le_max (le_refl 1) (Nat.div_le_div_right (by omega))

/-- **C2, counterexample.** The utterance texts `"a"` and `"ab" = "a" ++ "b"`
(with `"b"` non-empty) give *equal* token estimates (both `3`): with one and
two characters, `max(1, ⌈len/4 · 1.3⌉)` is `1` in both cases, so
`estimateTokens` of the longer text is not strictly greater, refuting the
claim as stated. -/
theorem estimateTokens_not_strict_counterexample :
    ("ab" = "a" ++ "b" ∧ "b" ≠ "") ∧
    ¬ (estimateTokens (HistoryEvent.own_utterance "i" 0 "ab" none none) >
        estimateTokens (HistoryEvent.own_utterance "i" 0 "a" none none)) := by
  refine ⟨⟨rfl, by decide⟩, ?_⟩
  decide

/-- **C2, amended.** For every two utterance events (participant or own)
identical except for their text, where one text is `A` and the other `A ++ B`
with `B` non-empty, `estimateTokens` of the longer text is greater *or equal*
(the heuristic is monotone, but not strictly: the `max(1, ·)` floor and the
granularity of `⌈len/4 · 1.3⌉` can absorb a short extension). -/
theorem estimateTokens_monotone_in_text (A B : String) (hB : B ≠ "")
    (i : String) (t : Int) (nm : String)
    (atts : Option (List MediaAttachment)) (m : Option GeminiMetadata) :
    estimateTokens (HistoryEvent.own_utterance i t (A ++ B) atts m) ≥
      estimateTokens (HistoryEvent.own_utterance i t A atts m) ∧
    estimateTokens (HistoryEvent.participant_utterance i t nm (A ++ B) atts) ≥
      estimateTokens (HistoryEvent.participant_utterance i t nm A atts) := by
  have hlen : A.length ≤ (A ++ B).length := by
    rw [String.length_append]; omega
  have hmono := approxTextTokensLen_mono hlen
  constructor
  · simp only [estimateTokens, approxTextTokens]
    omega
  · simp only [estimateTokens, approxTextTokens]
    omega

/-- Witness for the amended C2 theorem at `A = "abcd"`, `B = "e"`. -/
theorem estimateTokens_monotone_in_text_witness :
    estimateTokens (HistoryEvent.own_utterance "i" 0 ("abcd" ++ "e") none none) ≥
      estimateTokens (HistoryEvent.own_utterance "i" 0 "abcd" none none) :=
  (estimateTokens_monotone_in_text "abcd" "e" (by decide) "i" 0 "n" none none).1

theorem find?_congr_mem {α} (l : List α) (p q : α → Bool)
    (h : ∀ x ∈ l, p x = q x) : l.find? p = l.find? q := by
  induction l with
  | nil => rfl
  | cons a l ih =>
    rw [List.find?_cons, List.find?_cons, h a (by simp)]
    cases q a
    · exact ih (fun x hx => h x (by simp [hx]))
    · rfl

theorem reservedCallIds_contains (allCalls history : List HistoryEvent)
    (x : String) :
    (reservedCallIds allCalls history).contains x =
      (history.any (fun r => truthyToolCallId r == some x) &&
        allCalls.any (fun c => c.eid == x)) := by
  suffices h : ∀ (acc : List String),
      (history.foldl (reservedStep allCalls) acc).contains x =
        (acc.contains x ||
          (history.any (fun r => truthyToolCallId r == some x) &&
            allCalls.any (fun c => c.eid == x))) by
    have := h []
    simpa [reservedCallIds] using this
  induction history with
  | nil => intro acc; simp
  | cons e rest ih =>
    intro acc
    rw [List.foldl_cons, ih, List.any_cons]
    cases htid : truthyToolCallId e with
    | none => simp [reservedStep, htid]
    | some tid =>
      cases hf : allCalls.find? (fun c => c.eid == tid) with
      | none =>
        have hnone := List.find?_eq_none.mp hf
        have hstep : reservedStep allCalls acc e = acc := by
          simp [reservedStep, htid, hf]
        rw [hstep]
        by_cases hx : x = tid
        · subst hx
          have hany : allCalls.any (fun c => c.eid == x) = false := by
            rw [List.any_eq_false]
            intro c hc
            simpa using hnone c hc
          simp [hany]
        · have h1 : (some tid == some x) = false := by
            simp [Ne.symm hx]
          simp [h1]
      | some c =>
        have hpred := List.find?_some hf
        have hceid : c.eid = tid := by simpa using hpred
        have hcmem := List.mem_of_find?_eq_some hf
        have hstep : reservedStep allCalls acc e = c.eid :: acc := by
          simp [reservedStep, htid, hf]
        rw [hstep]
        by_cases hx : x = tid
        · subst hx
          have hany : allCalls.any (fun c => c.eid == x) = true := by
            rw [List.any_eq_true]
            exact ⟨c, hcmem, by simp [hceid]⟩
          simp [List.contains_cons, hceid, hany]
        · have h1 : (some tid == some x) = false := by simp [Ne.symm hx]
          simp [List.contains_cons, hceid, hx, h1]

theorem filterOrphanedGo_eq_claim (history : List HistoryEvent) :
    ∀ (rest : List HistoryEvent) (strict legacy : List String),
      filterOrphanedGo (history.filter HistoryEvent.isToolCall)
          (reservedCallIds (history.filter HistoryEvent.isToolCall) history)
          rest strict legacy
        = claimOrphanGo history rest strict legacy := by
  intro rest
  induction rest with
  | nil => intro strict legacy; rfl
  | cons e rest ih =>
    intro strict legacy
    by_cases hr : e.isToolResult
    · cases htid : truthyToolCallId e with
      | some tid =>
        by_cases hc : strict.contains tid
        · have hcm : tid ∈ strict := by simpa using hc
          have hfind : (history.filter HistoryEvent.isToolCall).find?
              (fun c => c.eid == tid && !(strict.contains c.eid)) = none := by
            rw [List.find?_eq_none]
            intro c _
            by_cases he : c.eid = tid
            · simp [he, hcm]
            · simp [he]
          have hcond :
              ((history.filter HistoryEvent.isToolCall).any (fun c => c.eid == tid)
                && !(strict.contains tid)) = false := by
            simp [hcm]
          simp only [filterOrphanedGo, claimOrphanGo, hr, if_true, htid, hfind,
            hcond, if_false]
          exact ih strict legacy
        · have hnm : tid ∉ strict := by
            intro hmem
            exact hc (by simpa using hmem)
          by_cases ha :
              (history.filter HistoryEvent.isToolCall).any (fun c => c.eid == tid)
          · have hex : ∃ c ∈ history.filter HistoryEvent.isToolCall,
                (fun c => c.eid == tid && !(strict.contains c.eid)) c = true := by
              rw [List.any_eq_true] at ha
              obtain ⟨c, hcm, hce⟩ := ha
              refine ⟨c, hcm, ?_⟩
              have : c.eid = tid := by simpa using hce
              simp [this, hnm]
            have hsome : ((history.filter HistoryEvent.isToolCall).find?
                (fun c => c.eid == tid && !(strict.contains c.eid))).isSome := by
              rw [List.find?_isSome]
              obtain ⟨c, hcm, hcp⟩ := hex
              exact ⟨c, hcm, hcp⟩
            obtain ⟨c, hfind⟩ := Option.isSome_iff_exists.mp hsome
            have hpred := List.find?_some hfind
            have hceid : c.eid = tid := by
              have := (Bool.and_eq_true _ _).mp hpred
              simpa using this.1
            have hcond :
                ((history.filter HistoryEvent.isToolCall).any (fun c => c.eid == tid)
                  && !(strict.contains tid)) = true := by
              simp [ha, hnm]
            simp only [filterOrphanedGo, claimOrphanGo, hr, if_true, htid, hfind,
              hcond]
            rw [hceid]
            rw [ih (tid :: strict) legacy]
          · have hfind : (history.filter HistoryEvent.isToolCall).find?
                (fun c => c.eid == tid && !(strict.contains c.eid)) = none := by
              rw [List.find?_eq_none]
              intro c hcm hcontra
              rcases (Bool.and_eq_true _ _).mp hcontra with ⟨h1, _⟩
              exact ha (List.any_eq_true.mpr ⟨c, hcm, h1⟩)
            have hcond :
                ((history.filter HistoryEvent.isToolCall).any (fun c => c.eid == tid)
                  && !(strict.contains tid)) = false := by
              simp [ha]
            simp only [filterOrphanedGo, claimOrphanGo, hr, if_true, htid, hfind,
              hcond, if_false]
            exact ih strict legacy
      | none =>
        have hpreds : ∀ c ∈ history.filter HistoryEvent.isToolCall,
            (c.toolName == e.toolName && decide (c.ets < e.ets) &&
              !((reservedCallIds (history.filter HistoryEvent.isToolCall)
                  history).contains c.eid) && !(legacy.contains c.eid))
            = (c.toolName == e.toolName && decide (c.ets < e.ets) &&
              !(reservedByStrict history c) && !(legacy.contains c.eid)) := by
          intro c hcm
          have hres : (reservedCallIds (history.filter HistoryEvent.isToolCall)
              history).contains c.eid = reservedByStrict history c := by
            rw [reservedCallIds_contains]
            have hany : (history.filter HistoryEvent.isToolCall).any
                (fun c' => c'.eid == c.eid) = true := by
              rw [List.any_eq_true]
              exact ⟨c, hcm, by simp⟩
            rw [hany, Bool.and_true]
            rfl
          rw [hres]
        have hfind := find?_congr_mem _ _ _ hpreds
        cases hf : (history.filter HistoryEvent.isToolCall).find? (fun c =>
            c.toolName == e.toolName && decide (c.ets < e.ets) &&
            !(reservedByStrict history c) && !(legacy.contains c.eid)) with
        | some c =>
          rw [hf] at hfind
          simp only [filterOrphanedGo, claimOrphanGo, hr, if_true, htid, hfind, hf]
          rw [ih strict (c.eid :: legacy)]
        | none =>
          rw [hf] at hfind
          simp only [filterOrphanedGo, claimOrphanGo, hr, if_true, htid, hfind, hf]
          exact ih strict legacy
    · simp only [filterOrphanedGo, claimOrphanGo, hr, if_false, Bool.false_eq_true]
      rw [ih strict legacy]

theorem claimOrphanGo_preserves_nonresults (history : List HistoryEvent) :
    ∀ (rest : List HistoryEvent) (s l : List String),
      (claimOrphanGo history rest s l).filter (fun e => !e.isToolResult)
        = rest.filter (fun e => !e.isToolResult) := by
  intro rest
  induction rest with
  | nil => intro s l; rfl
  | cons e rest ih =>
    intro s l
    by_cases hr : e.isToolResult
    · simp only [claimOrphanGo, hr, if_true]
      split
      · split
        · simp [List.filter_cons, hr, ih]
        · simp [List.filter_cons, hr, ih]
      · split
        · simp [List.filter_cons, hr, ih]
        · simp [List.filter_cons, hr, ih]
    · simp [claimOrphanGo, hr, List.filter_cons, ih]

/-- **C3.** `filterOrphanedToolResults` equals the claim's description of the
filter — every non-`tool_result` event is preserved, a strict (`toolCallId`)
result is kept iff a `tool_call` with that id exists and the id was not
already claimed by an earlier strict-matched result, and a legacy result is
kept iff an unclaimed, unreserved, same-named, strictly-earlier call exists
(greedy earliest-unclaimed matching) — and, in particular, the filter
preserves the subsequence of non-`tool_result` events exactly. -/
theorem filterOrphanedToolResults_spec (history : List HistoryEvent) :
    filterOrphanedToolResults history = claimOrphanFilter history ∧
    (filterOrphanedToolResults history).filter (fun e => !e.isToolResult)
      = history.filter (fun e => !e.isToolResult) := by
  have heq : filterOrphanedToolResults history = claimOrphanFilter history := by
    unfold filterOrphanedToolResults claimOrphanFilter
    exact filterOrphanedGo_eq_claim history history [] []
  refine ⟨heq, ?_⟩
  rw [heq]
  exact claimOrphanGo_preserves_nonresults history history [] []

theorem setAttachments_isToolCall (e : HistoryEvent)
    (a : Option (List MediaAttachment)) :
    (e.setAttachments a).isToolCall = e.isToolCall := by
  cases e <;> rfl

theorem setAttachments_meta (e : HistoryEvent)
    (a : Option (List MediaAttachment)) :
    (e.setAttachments a).meta? = e.meta? := by
  cases e <;> rfl

theorem hasValid_eq_sigTrim (m : Option GeminiMetadata) :
    hasValidThoughtSignature m
      = sigTrimNonempty (m.bind (fun md => md.thoughtSignature)) := by
  cases m with
  | none => rfl
  | some md =>
    rcases md with ⟨r, ts⟩
    cases ts <;> rfl

theorem mem_of_mem_ite {α} {c : Prop} [Decidable c] {l1 l2 : List α}
    {x : α} (h : x ∈ if c then l1 else l2) : x ∈ l1 ∨ x ∈ l2 := by
  split at h
  · exact Or.inl h
  · exact Or.inr h

theorem stripUnsupportedAtts_preserves (e : HistoryEvent) :
    (stripUnsupportedAtts e).isToolCall = e.isToolCall ∧
    (stripUnsupportedAtts e).meta? = e.meta? := by
  simp only [stripUnsupportedAtts]
  split
  · exact ⟨rfl, rfl⟩
  · split
    · exact ⟨rfl, rfl⟩
    · split
      · exact ⟨rfl, rfl⟩
      · exact ⟨setAttachments_isToolCall e _, setAttachments_meta e _⟩

theorem attachmentsToParts_no_functionCall
    (atts : Option (List MediaAttachment)) :
    ∀ p ∈ attachmentsToParts atts, p.functionCall = none := by
  intro p hp
  unfold attachmentsToParts at hp
  rw [List.mem_flatMap] at hp
  obtain ⟨a, _, hpa⟩ := hp
  cases a with
  | inlineAtt m d c =>
    cases c with
    | none =>
      simp only [MediaAttachment.caption, List.mem_singleton] at hpa
      subst hpa; rfl
    | some cap =>
      simp only [MediaAttachment.caption] at hpa
      split at hpa
      · rcases List.mem_pair.mp hpa with h | h <;> (subst h; rfl)
      · rw [List.mem_singleton] at hpa
        subst hpa; rfl
  | fileAtt m u c =>
    cases c with
    | none =>
      simp only [MediaAttachment.caption, List.mem_singleton] at hpa
      subst hpa; rfl
    | some cap =>
      simp only [MediaAttachment.caption] at hpa
      split at hpa
      · rcases List.mem_pair.mp hpa with h | h <;> (subst h; rfl)
      · rw [List.mem_singleton] at hpa
        subst hpa; rfl

theorem historyEventToContent_sig_ok (f : String → Option HistoryEvent)
    (fmt : Int → String) (e : HistoryEvent)
    (h : e.isToolCall = true → sigTrimNonempty (thoughtSigOf e) = true) :
    ∀ p ∈ (historyEventToContent f fmt e).parts, fcPartSigOk p = true := by
  intro p hp
  cases e with
  | participant_utterance i t nm tx atts =>
    simp only [historyEventToContent, wrapUserContent, List.mem_append] at hp
    rcases hp with hp | hp
    · split at hp <;> simp_all [fcPartSigOk]
    · have := attachmentsToParts_no_functionCall atts p hp
      simp [fcPartSigOk, this]
  | participant_edit_message i t nm tx om atts =>
    simp only [historyEventToContent, wrapUserContent, List.mem_append] at hp
    rcases hp with hp | hp
    · split at hp <;> simp_all [fcPartSigOk]
    · have := attachmentsToParts_no_functionCall atts p hp
      simp [fcPartSigOk, this]
  | own_utterance i t tx atts m =>
    simp only [historyEventToContent, wrapModelContent] at hp
    rcases mem_of_mem_ite hp with hp | hp
    · rcases List.mem_append.mp hp with hp | hp
      · rcases mem_of_mem_ite hp with hp | hp
        · rw [List.mem_singleton] at hp; subst hp; simp [fcPartSigOk]
        · simp at hp
      · rcases mem_of_mem_ite hp with hp | hp
        · have := attachmentsToParts_no_functionCall atts p hp
          simp [fcPartSigOk, this]
        · simp at hp
    · rw [List.mem_singleton] at hp; subst hp; simp [fcPartSigOk]
  | own_edit_message i t tx om atts m =>
    simp only [historyEventToContent, wrapModelContent] at hp
    rcases mem_of_mem_ite hp with hp | hp
    · rcases List.mem_append.mp hp with hp | hp
      · rcases mem_of_mem_ite hp with hp | hp
        · rw [List.mem_singleton] at hp; subst hp; simp [fcPartSigOk]
        · simp at hp
      · rcases mem_of_mem_ite hp with hp | hp
        · have := attachmentsToParts_no_functionCall atts p hp
          simp [fcPartSigOk, this]
        · simp at hp
    · rw [List.mem_singleton] at hp; subst hp; simp [fcPartSigOk]
  | tool_call i t nm params m =>
    simp only [historyEventToContent, wrapModelContent,
      List.mem_singleton] at hp
    subst hp
    have hsig := h rfl
    simp only [thoughtSigOf, HistoryEvent.meta?] at hsig
    simp [fcPartSigOk, hsig]
  | tool_result i t nm r tid atts =>
    simp only [historyEventToContent, wrapUserContent, List.mem_append,
      List.mem_singleton] at hp
    rcases hp with hp | hp
    · subst hp; simp [fcPartSigOk]
    · have := attachmentsToParts_no_functionCall atts p hp
      simp [fcPartSigOk, this]
  | own_thought i t tx m =>
    simp only [historyEventToContent, wrapUserContent,
      List.mem_singleton] at hp
    subst hp; simp [fcPartSigOk]
  | own_reaction i t r om m =>
    simp only [historyEventToContent, wrapModelContent,
      List.mem_singleton] at hp
    subst hp; simp [fcPartSigOk]
  | participant_reaction i t nm r om =>
    simp only [historyEventToContent, wrapUserContent,
      List.mem_singleton] at hp
    subst hp; simp [fcPartSigOk]
  | do_nothing i t own m =>
    simp only [historyEventToContent, wrapModelContent,
      List.mem_singleton] at hp
    subst hp; simp [fcPartSigOk]

theorem mem_fixStart {c : Content} {l : List Content} (h : c ∈ fixStart l) :
    c = wrapUserContent [{ text := some "<conversation started>" }] ∨ c ∈ l := by
  cases l with
  | nil =>
    simp only [fixStart, List.mem_singleton] at h
    exact Or.inl h
  | cons c0 l =>
    simp only [fixStart] at h
    rcases mem_of_mem_ite h with h | h
    · rcases List.mem_cons.mp h with h | h
      · exact Or.inl h
      · exact Or.inr h
    · exact Or.inr h

theorem buildReq_parts_sig_ok (ig lm : Bool) (prompt : String)
    (tns : List String) (fmt : Int → String) (mot : Option Nat)
    (events : List HistoryEvent)
    (hinv : ∀ e ∈ events,
      e.isToolCall = true → sigTrimNonempty (thoughtSigOf e) = true) :
    ∀ p ∈ partsOfReq (buildReq ig lm prompt tns fmt mot events),
      fcPartSigOk p = true := by
  intro p hp
  unfold partsOfReq buildReq at hp
  simp only [List.mem_flatMap] at hp
  obtain ⟨c, hc, hpc⟩ := hp
  rcases mem_fixStart hc with hc | hc
  · subst hc
    simp only [wrapUserContent, List.mem_singleton] at hpc
    subst hpc; simp [fcPartSigOk]
  · rw [List.mem_map] at hc
    obtain ⟨grp, hgrp, hcomb⟩ := hc
    subst hcomb
    simp only [combineContent, List.mem_flatMap] at hpc
    obtain ⟨c', hc', hpc'⟩ := hpc
    rw [List.mem_map] at hc'
    obtain ⟨e, he, hec⟩ := hc'
    subst hec
    have hemem : e ∈ events := by
      unfold groupByOrdered at hgrp
      rw [List.mem_map] at hgrp
      obtain ⟨k, _, hk⟩ := hgrp
      subst hk
      exact (List.mem_filter.mp he).1
    exact historyEventToContent_sig_ok _ _ e (hinv e hemem) p hpc'

/-- **C10.** `filterInvalidToolCalls` removes precisely the `tool_call`
events whose `modelMetadata.thoughtSignature` is absent, empty, or
whitespace-only and passes every other event through unchanged; and every
part of the request built (by the `geminiAgentCaller` pipeline
`filterOrphanedToolResults` → `filterInvalidToolCalls` →
`filterUnsupportedGeminiAttachments` → `buildReq`) from the filtered history
that carries a function call also carries a thought signature that trims
non-empty. -/
theorem filterInvalidToolCalls_spec (history : List HistoryEvent)
    (ig lm : Bool) (prompt : String) (tns : List String)
    (fmt : Int → String) (mot : Option Nat) :
    filterInvalidToolCalls history
        = history.filter (fun e => !claimInvalidToolCall e) ∧
    (partsOfReq (buildReq ig lm prompt tns fmt mot
        (filterUnsupportedGeminiAttachments (filterInvalidToolCalls
          (filterOrphanedToolResults history))))).all fcPartSigOk = true := by
  constructor
  · unfold filterInvalidToolCalls
    apply List.filter_congr
    intro e _
    rw [hasValid_eq_sigTrim]
    rfl
  · rw [List.all_eq_true]
    apply buildReq_parts_sig_ok
    intro e he htc
    unfold filterUnsupportedGeminiAttachments at he
    rw [List.mem_map] at he
    obtain ⟨e0, he0, hstrip⟩ := he
    subst hstrip
    obtain ⟨htc_eq, hmeta_eq⟩ := stripUnsupportedAtts_preserves e0
    rw [htc_eq] at htc
    have hv : hasValidThoughtSignature e0.meta? = true := by
      simpa [htc] using (List.mem_filter.mp he0).2
    rw [hasValid_eq_sigTrim] at hv
    unfold thoughtSigOf
    rw [hmeta_eq]
    exact hv

theorem mapGeminiParts_no_doNothing (idGen : Nat → String) (tsGen : Nat → Int)
    (responseId : String) :
    ∀ (output : List GeminiPartOfInterest) (n : Nat)
      (l : List HistoryEvent),
      mapGeminiParts idGen tsGen responseId n output = .ok l →
      ∀ e ∈ l, e.isDoNothing = false := by
  intro output
  induction output with
  | nil =>
    intro n l h e he
    simp only [mapGeminiParts] at h
    cases h
    simp at he
  | cons p rest ih =>
    intro n l h e he
    simp only [mapGeminiParts, bind, Except.bind] at h
    cases hp : geminiOutputPartToHistoryEvent idGen tsGen responseId n p with
    | error err => rw [hp] at h; cases h
    | ok e0 =>
      rw [hp] at h
      cases hrest : mapGeminiParts idGen tsGen responseId (n + 1) rest with
      | error err => rw [hrest] at h; cases h
      | ok es =>
        rw [hrest] at h
        cases h
        rcases List.mem_cons.mp he with he | he
        · subst he
          cases p with
          | textPart t sig => cases hp; rfl
          | functionCallPart i nm args sig =>
            cases nm with
            | some nm => cases hp; rfl
            | none => cases hp
          | inlineDataPart d m sig =>
            cases d with
            | some d => cases hp; rfl
            | none => cases hp; rfl
          | fileDataPart u m sig =>
            cases u with
            | some u => cases hp; rfl
            | none => cases hp; rfl
        · exact ih (n + 1) es hrest e he

/-- **C4.** A Gemini response with no function-call part, no inline-data
part, no file-data part, and no text part containing a non-whitespace
character (`didNothing`) is mapped to exactly one `do_nothing` event, which
carries the first signed text part's thought signature as continuation
metadata when one is present; a response containing at least one such part
(so `didNothing` is false) yields no `do_nothing` event at all. -/
theorem geminiDoNothing_spec (idGen : Nat → String) (tsGen : Nat → Int)
    (n : Nat) (output : List GeminiPartOfInterest) :
    (didNothing output = true →
      mapGeminiOutput idGen tsGen n output =
        .ok [.do_nothing (idGen (n + 1)) (tsGen (n + 1)) true
          (claimDoNothingMeta (idGen n) output)]) ∧
    (∀ l, mapGeminiOutput idGen tsGen n output = .ok l →
      (l.filter HistoryEvent.isDoNothing).length
        = if didNothing output then 1 else 0) := by
  constructor
  · intro hdn
    simp only [mapGeminiOutput, hdn, if_true, claimDoNothingMeta]
  · intro l hl
    by_cases hdn : didNothing output
    · simp only [mapGeminiOutput, hdn, if_true] at hl
      cases hl
      simp [hdn, List.filter, HistoryEvent.isDoNothing]
    · simp only [mapGeminiOutput] at hl
      rw [if_neg hdn] at hl
      have hnone := mapGeminiParts_no_doNothing idGen tsGen (idGen n)
        output (n + 1) l hl
      rw [if_neg hdn]
      rw [List.length_eq_zero, List.filter_eq_nil_iff]
      intro e he
      simp [hnone e he]

/-- Witness for C4 at the empty output (`didNothing [] = true`): the mapping
yields exactly the single `do_nothing` event with no metadata. -/
theorem geminiDoNothing_spec_witness :
    mapGeminiOutput (fun _ => "x") (fun _ => (0 : Int)) 0 [] =
      .ok [.do_nothing "x" 0 true none] ∧
    (([.do_nothing "x" 0 true none] :
        List HistoryEvent).filter HistoryEvent.isDoNothing).length = 1 := by
  constructor
  · exact (geminiDoNothing_spec (fun _ => "x") (fun _ => (0 : Int)) 0 []).1 rfl
  · exact (geminiDoNothing_spec (fun _ => "x") (fun _ => (0 : Int)) 0 []).2
      [.do_nothing "x" 0 true none]
      ((geminiDoNothing_spec (fun _ => "x") (fun _ => (0 : Int)) 0 []).1 rfl)

/-- **C5, counterexample.** The empty string is a defined (present) name,
yet with an empty tool list — where no declared tool has that name — the
dispatch does not resolve with a "not found" result string: it throws
`"Function call name is missing"`, because the source's `if (!name)` check
treats the empty string like an absent name. -/
theorem callToResult_empty_name_counterexample :
    (some "" ≠ (none : Option String)) ∧
    callToResult [] { id := none, args := none, name := some "" }
      = .error "Function call name is missing" := by
  exact ⟨by decide, rfl⟩

/-- **C5, amended.** For every tool list and every function call whose name
is defined *and non-empty*: if no declared tool has that name, dispatch
resolves successfully with a result string reporting the function was not
found; if a tool is found but the arguments fail its parameter-schema
validation, dispatch resolves successfully with a result string beginning
`"Invalid arguments:"` that includes the validation details; in neither
case is an error thrown. -/
theorem callToResult_model_errors (actions : List LTool) (fc : FunctionCall)
    (nm : String) (hname : fc.name = some nm) (hne : nm ≠ "") :
    (actions.all (fun t => !(t.name == nm)) = true →
      callToResult actions fc
        = .ok ⟨fc.id, nm, "Function " ++ nm ++ " not found", none⟩) ∧
    (∀ t, actions.find? (fun t => fc.name == some t.name) = some t →
      ∀ err, t.parseParams fc.args = .error err →
        callToResult actions fc
            = .ok ⟨fc.id, nm, "Invalid arguments: " ++ err, none⟩ ∧
          ∃ rest, "Invalid arguments: " ++ err
            = "Invalid arguments:" ++ rest) := by
  have hfalsy : jsFalsyName fc.name = false := by
    rw [hname]
    simpa [jsFalsyName] using hne
  constructor
  · intro hall
    have hfind : actions.find? (fun t => fc.name == some t.name) = none := by
      rw [List.find?_eq_none]
      intro t ht
      rw [List.all_eq_true] at hall
      have := hall t ht
      rw [hname]
      simp only [Option.some.injEq, beq_iff_eq]
      intro hc
      simp [hc] at this
    simp only [callToResult, hfind, hfalsy]
    rw [if_neg (by simp [hfalsy])]
    rw [hname]
    rfl
  · intro t hfind err herr
    constructor
    · simp only [callToResult, hfind, herr, hfalsy]
      rw [if_neg (by simp [hfalsy])]
      rw [hname]
      rfl
    · refine ⟨" " ++ err, ?_⟩
      rw [← String.append_assoc]
      have h : ("Invalid arguments:" ++ " " : String) = "Invalid arguments: " := by
        decide
      rw [h]

/-- Witness for the amended C5 theorem: with `demoFailParseTool`, a call to
the unknown name `"missing"` resolves to a "not found" result, and a call
to `"t"` with failing validation resolves to an `"Invalid arguments: …"`
result; neither throws. -/
theorem callToResult_model_errors_witness :
    callToResult [demoFailParseTool]
        { id := some "c1", args := none, name := some "missing" }
      = .ok ⟨some "c1", "missing", "Function missing not found", none⟩ ∧
    callToResult [demoFailParseTool]
        { id := none, args := none, name := some "t" }
      = .ok ⟨none, "t", "Invalid arguments: boom", none⟩ := by
  constructor
  · exact (callToResult_model_errors [demoFailParseTool]
      { id := some "c1", args := none, name := some "missing" }
      "missing" rfl (by decide)).1 (by decide)
  · exact ((callToResult_model_errors [demoFailParseTool]
      { id := none, args := none, name := some "t" }
      "t" rfl (by decide)).2 demoFailParseTool rfl "boom" rfl).1

/-- **C6.** When a tool is found and its arguments validate, the dispatch
outcome is decided entirely by the handler's return value: a value failing
the declared return shape (`invalidRet`) makes dispatch throw
(`Except.error`), never producing a `tool_result`; a plain string or a
matching `{result, attachments?}` object never throws at this step and is
normalized into `{toolCallId, name, result, attachments?}`. -/
theorem callToResult_return_validation (actions : List LTool)
    (fc : FunctionCall) (nm : String) (t : LTool)
    (parsed : Option JsParams) (hname : fc.name = some nm) (hne : nm ≠ "")
    (hfind : actions.find? (fun t => fc.name == some t.name) = some t)
    (hparse : t.parseParams fc.args = .ok parsed) :
    callToResult actions fc =
      match t.handler parsed with
      | .strRet s => .ok ⟨fc.id, nm, s, none⟩
      | .objRet r atts => .ok ⟨fc.id, nm, r, atts⟩
      | .invalidRet =>
        .error ("Tool \"" ++ nm ++ "\" handler returned invalid value") := by
  have hfalsy : jsFalsyName fc.name = false := by
    rw [hname]
    simpa [jsFalsyName] using hne
  simp only [callToResult, hfind, hparse]
  rw [if_neg (by simp [hfalsy])]
  rw [hname]
  cases t.handler parsed <;> rfl

/-- Witness for C6: the invalid-return tool makes dispatch reject; the
string-returning tool resolves to the normalized result. -/
theorem callToResult_return_validation_witness :
    callToResult [demoBadReturnTool]
        { id := none, args := none, name := some "bad" }
      = .error "Tool \"bad\" handler returned invalid value" ∧
    callToResult [demoStrReturnTool]
        { id := some "k", args := none, name := some "good" }
      = .ok ⟨some "k", "good", "done", none⟩ := by
  constructor
  · exact callToResult_return_validation [demoBadReturnTool]
      { id := none, args := none, name := some "bad" }
      "bad" demoBadReturnTool none rfl (by decide) rfl rfl
  · exact callToResult_return_validation [demoStrReturnTool]
      { id := some "k", args := none, name := some "good" }
      "good" demoStrReturnTool none rfl (by decide) rfl rfl

theorem finishOrLoop_calls (cont : LoopState → Nat → RunResult)
    (calls : Nat) (st2 : LoopState) (n : Nat)
    (hcont : ∀ st c, (cont st c).modelCalls ≤ c + n ∧
      (cont st c).callbacks = (if (cont st c).status.isCap then 1 else 0)) :
    ∀ o, (finishOrLoop cont calls st2 o).modelCalls ≤ calls + 1 + n ∧
      (finishOrLoop cont calls st2 o).callbacks
        = (if (finishOrLoop cont calls st2 o).status.isCap then 1 else 0) := by
  intro o
  cases o with
  | none => simp only [finishOrLoop]; exact ⟨by omega, rfl⟩
  | some e =>
    simp only [finishOrLoop]
    by_cases hown : e.isOwnB
    · simp only [hown, if_true]
      exact ⟨by omega, rfl⟩
    · simp only [hown, if_false, Bool.false_eq_true]
      have := hcont st2 (calls + 1)
      exact ⟨by omega, this.2⟩

theorem afterDispatch_calls (cont : LoopState → Nat → RunResult)
    (calls : Nat) (output : List HistoryEvent) (n : Nat)
    (p : LoopState × Option String)
    (hcont : ∀ st c, (cont st c).modelCalls ≤ c + n ∧
      (cont st c).callbacks = (if (cont st c).status.isCap then 1 else 0)) :
    (afterDispatch cont calls output p).modelCalls ≤ calls + 1 + n ∧
      (afterDispatch cont calls output p).callbacks
        = (if (afterDispatch cont calls output p).status.isCap then 1 else 0) := by
  rcases p with ⟨st2, msg?⟩
  cases msg? with
  | some msg => simp only [afterDispatch]; exact ⟨by omega, rfl⟩
  | none =>
    simp only [afterDispatch]
    by_cases hany : output.any HistoryEvent.isToolCall
    · simp only [hany, if_true]
      have := hcont st2 (calls + 1)
      exact ⟨by omega, this.2⟩
    · simp only [hany, if_false, Bool.false_eq_true]
      exact finishOrLoop_calls cont calls st2 n hcont _

theorem runAgentLoop_calls_le (env : AgentEnv) (tools : List LTool) :
    ∀ (n : Nat) (st : LoopState) (calls : Nat),
      (runAgentLoop env tools n st calls).modelCalls ≤ calls + n ∧
      (runAgentLoop env tools n st calls).callbacks
        = (if (runAgentLoop env tools n st calls).status.isCap then 1 else 0) := by
  intro n
  induction n with
  | zero => intro st calls; exact ⟨Nat.le_refl _, rfl⟩
  | succ n ih =>
    intro st calls
    simp only [runAgentLoop]
    have h := afterDispatch_calls (runAgentLoop env tools n) calls
      (env.callModel st.history) n
      (dispatchCalls env tools (env.callModel st.history)
        { st with history := st.history ++ env.callModel st.history })
      (fun st c => ih st c)
    exact ⟨by omega, h.2⟩

/-- **C7.** `runAbstractAgent` never performs more than `maxIterations + 1`
model calls (in fact at most `maxIterations`); and the run reaches the
iteration-cap outcome iff `onMaxIterationsReached` is invoked exactly once
(zero invocations otherwise), the cap being a normal return
(`RunStatus.capReached`), not a thrown error. -/
theorem runAbstractAgent_cap_spec (env : AgentEnv) (tools : List LTool)
    (maxIterations : Nat) (initialHistory : List HistoryEvent) :
    (runAbstractAgent env tools maxIterations initialHistory).modelCalls
        ≤ maxIterations + 1 ∧
    (runAbstractAgent env tools maxIterations initialHistory).callbacks
      = (if (runAbstractAgent env tools maxIterations
              initialHistory).status.isCap then 1 else 0) := by
  have h := runAgentLoop_calls_le env tools maxIterations ⟨initialHistory, 0⟩ 0
  exact ⟨by unfold runAbstractAgent; omega, h.2⟩

/-- **C8, counterexample.** With a model caller that returns no events, an
empty initial history and `maxIterations = 2`, the claim "in every other
case the loop proceeds to another iteration" fails: the first iteration
produces no `tool_call` and the re-read history is empty, so `last(...)` is
`undefined` and the `.isOwn` access rejects the run after a single model
call — the loop neither finishes normally nor proceeds (proceeding would
have reached the cap with 2 model calls and one callback). -/
theorem agentLoop_empty_history_counterexample :
    runAbstractAgent
        { callModel := fun _ => [], idGen := fun _ => "g", tsGen := fun _ => 0 }
        [] 2 []
      = { modelCalls := 1, callbacks := 0,
          status := .failed "TypeError: cannot read isOwn of undefined" [] } := by
  rfl

/-- **C8, amended.** After an iteration whose tool dispatch succeeded, the
loop finishes with normal completion iff the iteration's output contained no
`tool_call` event and the last event of the re-read history is self-authored;
it proceeds to another iteration in every other case where the re-read
history is non-empty; and when no `tool_call` was produced and the re-read
history is empty, the run rejects (a `TypeError` on `last(...).isOwn`)
instead of proceeding. -/
theorem runAgentLoop_step_spec (env : AgentEnv) (tools : List LTool)
    (n : Nat) (st : LoopState) (calls : Nat) (st2 : LoopState)
    (hdisp : dispatchCalls env tools (env.callModel st.history)
        { st with history := st.history ++ env.callModel st.history }
      = (st2, none)) :
    runAgentLoop env tools (n + 1) st calls =
      match claimNextAction (env.callModel st.history) st2.history with
      | .finishTurn =>
        { modelCalls := calls + 1, callbacks := 0,
          status := .finished st2.history }
      | .continueLoop => runAgentLoop env tools n st2 (calls + 1)
      | .crash =>
        { modelCalls := calls + 1, callbacks := 0,
          status := .failed "TypeError: cannot read isOwn of undefined"
            st2.history } := by
  simp only [runAgentLoop, hdisp, afterDispatch, claimNextAction]
  by_cases hany : (env.callModel st.history).any HistoryEvent.isToolCall
  · simp [hany]
  · simp only [hany, if_false, Bool.false_eq_true]
    cases hlast : st2.history.getLast? with
    | some e =>
      simp only [finishOrLoop]
      by_cases hown : e.isOwnB
      · simp [hown]
      · simp [hown]
    | none => simp only [finishOrLoop]

/-- Witness for the amended C8 theorem: a model turn producing a single own
utterance with no tool call and a non-empty history finishes the run. -/
theorem runAgentLoop_step_spec_witness :
    runAgentLoop
        { callModel := fun _ => [HistoryEvent.own_utterance "a" 0 "hi" none none],
          idGen := fun _ => "g", tsGen := fun _ => 0 }
        [] 1 ⟨[], 0⟩ 0
      = { modelCalls := 1, callbacks := 0,
          status := .finished [HistoryEvent.own_utterance "a" 0 "hi" none none] } := by
  have h := runAgentLoop_step_spec
    { callModel := fun _ => [HistoryEvent.own_utterance "a" 0 "hi" none none],
      idGen := fun _ => "g", tsGen := fun _ => 0 }
    [] 0 ⟨[], 0⟩ 0
    ⟨[HistoryEvent.own_utterance "a" 0 "hi" none none], 0⟩ rfl
  simpa using h

theorem noCallAfterRewrite_append_calls (l m : List RecoveryAction)
    (h : l.all RecoveryAction.isCall = true) :
    noCallAfterRewrite (l ++ m) = noCallAfterRewrite m := by
  induction l with
  | nil => rfl
  | cons a l ih =>
    rw [List.all_cons, Bool.and_eq_true] at h
    cases a with
    | providerCall ev =>
      simp only [List.cons_append, noCallAfterRewrite]
      exact ih h.2
    | rewriteHist r => simp [RecoveryAction.isCall] at h

theorem noCallAfterRewrite_calls (l : List RecoveryAction)
    (h : l.all RecoveryAction.isCall = true) :
    noCallAfterRewrite l = true := by
  have := noCallAfterRewrite_append_calls l [] h
  simpa using this

theorem rewriteCount_append (l m : List RecoveryAction) :
    rewriteCount (l ++ m) = rewriteCount l + rewriteCount m := by
  unfold rewriteCount
  rw [List.filter_append, List.length_append]

theorem rewriteCount_calls (l : List RecoveryAction)
    (h : l.all RecoveryAction.isCall = true) : rewriteCount l = 0 := by
  unfold rewriteCount
  rw [List.length_eq_zero, List.filter_eq_nil_iff]
  intro a ha
  rw [List.all_eq_true] at h
  simp [h a ha]

theorem stripAllNotActiveFilesGo_calls
    (oracle : Nat → Except GemErrorInfo (List GeminiPartOfInterest)) :
    ∀ (fuel k : Nat) (events : List HistoryEvent)
      (trace : List RecoveryAction),
      trace.all RecoveryAction.isCall = true →
      ((stripAllNotActiveFilesGo oracle fuel k events trace).trace).all
          RecoveryAction.isCall = true := by
  intro fuel
  induction fuel with
  | zero =>
    intro k events trace h
    simp only [stripAllNotActiveFilesGo]
    simp [List.all_append, h, RecoveryAction.isCall]
  | succ fuel ih =>
    intro k events trace h
    simp only [stripAllNotActiveFilesGo]
    cases horacle : oracle k with
    | ok out =>
      simp only [horacle]
      simp [List.all_append, h, RecoveryAction.isCall]
    | error e =>
      simp only [horacle]
      cases hfix : handleFileNotActiveError e events with
      | none =>
        simp only [hfix]
        simp [List.all_append, h, RecoveryAction.isCall]
      | some fixed =>
        simp only [hfix]
        apply ih
        simp [List.all_append, h, RecoveryAction.isCall]

theorem stripAllUnsupportedGo_spec
    (oracle : Nat → Except GemErrorInfo (List GeminiPartOfInterest)) :
    ∀ (fuel k : Nat) (err : GemErrorInfo) (events : List HistoryEvent)
      (repl : List (String × HistoryEvent)) (trace : List RecoveryAction),
      trace.all RecoveryAction.isCall = true →
      noCallAfterRewrite ((stripAllUnsupportedMimeTypesGo oracle fuel k err
          events repl trace).trace) = true ∧
      rewriteCount ((stripAllUnsupportedMimeTypesGo oracle fuel k err
          events repl trace).trace) ≤ 1 := by
  intro fuel
  induction fuel with
  | zero =>
    intro k err events repl trace h
    simp only [stripAllUnsupportedMimeTypesGo]
    constructor
    · rw [noCallAfterRewrite_append_calls _ _ h]
      rfl
    · rw [rewriteCount_append, rewriteCount_calls _ h]
      simp [rewriteCount, RecoveryAction.isCall]
  | succ fuel ih =>
    intro k err events repl trace h
    simp only [stripAllUnsupportedMimeTypesGo]
    cases hmime : err.unsupportedMime with
    | none =>
      simp only [hmime]
      exact ⟨noCallAfterRewrite_calls _ h, by rw [rewriteCount_calls _ h]; omega⟩
    | some mimeType =>
      simp only [hmime]
      cases horacle : oracle k with
      | ok out =>
        simp only [horacle]
        constructor
        · rw [noCallAfterRewrite_append_calls _ _ h]
          simp [noCallAfterRewrite, RecoveryAction.isCall]
        · rw [rewriteCount_append, rewriteCount_calls _ h]
          simp [rewriteCount, RecoveryAction.isCall]
      | error e2 =>
        simp only [horacle]
        by_cases hm : isUnsupportedMimeTypeError e2
        · simp only [hm, Bool.not_true, Bool.false_eq_true, if_false]
          apply ih
          simp [List.all_append, h, RecoveryAction.isCall]
        · have hm' : (!isUnsupportedMimeTypeError e2) = true := by
            simp [Bool.not_eq_true] at hm ⊢
            exact hm
          simp only [hm', if_true]
          constructor
          · rw [noCallAfterRewrite_append_calls _ _ h]
            rfl
          · rw [rewriteCount_append, rewriteCount_calls _ h]
            simp [rewriteCount, RecoveryAction.isCall]

theorem stripAllExpiredGo_spec
    (oracle : Nat → Except GemErrorInfo (List GeminiPartOfInterest)) :
    ∀ (fuel k : Nat) (err : GemErrorInfo) (events : List HistoryEvent)
      (repl : List (String × HistoryEvent)) (trace : List RecoveryAction),
      trace.all RecoveryAction.isCall = true →
      noCallAfterRewrite ((stripAllExpiredFilesGo oracle fuel k err
          events repl trace).trace) = true ∧
      rewriteCount ((stripAllExpiredFilesGo oracle fuel k err
          events repl trace).trace) ≤ 1 := by
  intro fuel
  induction fuel with
  | zero =>
    intro k err events repl trace h
    simp only [stripAllExpiredFilesGo]
    constructor
    · rw [noCallAfterRewrite_append_calls _ _ h]
      rfl
    · rw [rewriteCount_append, rewriteCount_calls _ h]
      simp [rewriteCount, RecoveryAction.isCall]
  | succ fuel ih =>
    intro k err events repl trace h
    simp only [stripAllExpiredFilesGo]
    cases hfix : stripExpiredFile err events with
    | none =>
      simp only [hfix]
      exact ⟨noCallAfterRewrite_calls _ h, by rw [rewriteCount_calls _ h]; omega⟩
    | some fixed =>
      simp only [hfix]
      by_cases hlen : fixed.2.length = 0
      · simp only [hlen, if_true]
        cases horacle : oracle k with
        | ok out =>
          simp only [horacle]
          constructor
          · rw [noCallAfterRewrite_append_calls _ _ h]
            simp [noCallAfterRewrite, RecoveryAction.isCall]
          · rw [rewriteCount_append, rewriteCount_calls _ h]
            simp [rewriteCount, RecoveryAction.isCall]
        | error e2 =>
          simp only [horacle]
          constructor
          · rw [noCallAfterRewrite_append_calls _ _ h]
            rfl
          · rw [rewriteCount_append, rewriteCount_calls _ h]
            simp [rewriteCount, RecoveryAction.isCall]
      · simp only [hlen, if_false]
        cases horacle : oracle k with
        | ok out =>
          simp only [horacle]
          constructor
          · rw [noCallAfterRewrite_append_calls _ _ h]
            simp [noCallAfterRewrite, RecoveryAction.isCall]
          · rw [rewriteCount_append, rewriteCount_calls _ h]
            simp [rewriteCount, RecoveryAction.isCall]
        | error e2 =>
          simp only [horacle]
          by_cases h403 : is403PermissionError e2
          · simp only [h403, Bool.not_true, Bool.false_eq_true, if_false]
            apply ih
            simp [List.all_append, h, RecoveryAction.isCall]
          · have h403' : (!is403PermissionError e2) = true := by
              simp [Bool.not_eq_true] at h403 ⊢
              exact h403
            simp only [h403', if_true]
            constructor
            · rw [noCallAfterRewrite_append_calls _ _ h]
              rfl
            · rw [rewriteCount_append, rewriteCount_calls _ h]
              simp [rewriteCount, RecoveryAction.isCall]

/-- **C1, counterexample.** In the expired/inactive-file recovery path
(`stripAllNotActiveFiles`), a repair is applied to the in-memory event list
(the second provider call is issued on a repaired history differing from the
original) while the trace contains *zero* `rewriteHistory` invocations — so
the repair is not persisted before (or ever) the retried provider call,
refuting the claim. -/
theorem stripAllNotActive_no_rewrite_counterexample :
    (stripAllNotActiveFiles c1Oracle [c1Event]).trace
        = [.providerCall [c1Event], .providerCall [c1Repaired]] ∧
    c1Repaired ≠ c1Event ∧
    rewriteCount ((stripAllNotActiveFiles c1Oracle [c1Event]).trace) = 0 := by
  refine ⟨by decide, by decide, by decide⟩

/-- **C1, amended.** No repair is persisted before the retried provider
call: the file-not-active path (`stripAllNotActiveFiles`) never invokes
`rewriteHistory` at all (its trace consists of provider calls only); the
unsupported-mime-type and expired/permission-denied paths invoke
`rewriteHistory` at most once, cumulatively, and never issue a provider call
after a `rewriteHistory` — the single rewrite happens only *after* the
successful retried call (and not at all when the attempt budget is exhausted
or recovery aborts). -/
theorem recovery_persists_after_retry
    (oracle : Nat → Except GemErrorInfo (List GeminiPartOfInterest))
    (initialError : GemErrorInfo) (events : List HistoryEvent) :
    rewriteCount ((stripAllNotActiveFiles oracle events).trace) = 0 ∧
    noCallAfterRewrite
        ((stripAllUnsupportedMimeTypes oracle initialError events).trace)
      = true ∧
    rewriteCount
        ((stripAllUnsupportedMimeTypes oracle initialError events).trace)
      ≤ 1 ∧
    noCallAfterRewrite
        ((stripAllExpiredFiles oracle initialError events).trace) = true ∧
    rewriteCount ((stripAllExpiredFiles oracle initialError events).trace)
      ≤ 1 := by
  refine ⟨?_, ?_, ?_, ?_, ?_⟩
  · exact rewriteCount_calls _
      (stripAllNotActiveFilesGo_calls oracle 5 0 events [] rfl)
  · exact (stripAllUnsupportedGo_spec oracle 5 0 initialError events [] [] rfl).1
  · exact (stripAllUnsupportedGo_spec oracle 5 0 initialError events [] [] rfl).2
  · exact (stripAllExpiredGo_spec oracle 5 0 initialError events [] [] rfl).1
  · exact (stripAllExpiredGo_spec oracle 5 0 initialError events [] [] rfl).2

theorem conditionalRetryGo_spec (pred : GemErrorInfo → Bool)
    (intervalMs : Nat)
    (oracle : Nat → GenerateContentParameters →
      Except GemErrorInfo (List GeminiPartOfInterest))
    (req : GenerateContentParameters) :
    ∀ (r k : Nat) (attempts : List AttemptRecord) (sleeps : List Nat),
      ∃ extra : List AttemptRecord,
        (conditionalRetryGo pred intervalMs oracle req r k attempts
            sleeps).attempts = attempts ++ extra ∧
        1 ≤ extra.length ∧ extra.length ≤ r + 1 ∧
        (conditionalRetryGo pred intervalMs oracle req r k attempts
            sleeps).sleeps
          = sleeps ++ List.replicate (extra.length - 1) intervalMs ∧
        extra.dropLast.all (errSatisfies pred) = true ∧
        extra.all (fun a => decide (a.req = req)) = true ∧
        extra.getLast? = some ⟨req,
          (conditionalRetryGo pred intervalMs oracle req r k attempts
            sleeps).result⟩ ∧
        (∀ e, (conditionalRetryGo pred intervalMs oracle req r k attempts
            sleeps).result = .error e → pred e = true →
          extra.length = r + 1) := by
  intro r
  induction r with
  | zero =>
    intro k attempts sleeps
    simp only [conditionalRetryGo]
    cases ho : oracle k req with
    | ok out =>
      simp only [ho]
      refine ⟨[⟨req, .ok out⟩], rfl, by simp, by simp, by simp, rfl, by simp,
        rfl, ?_⟩
      intro e he
      simp at he
    | error e0 =>
      simp only [ho]
      refine ⟨[⟨req, .error e0⟩], rfl, by simp, by simp, by simp, rfl, by simp,
        rfl, ?_⟩
      intro e _ _
      simp
  | succ r ih =>
    intro k attempts sleeps
    simp only [conditionalRetryGo]
    cases ho : oracle k req with
    | ok out =>
      simp only [ho]
      refine ⟨[⟨req, .ok out⟩], rfl, by simp, by simp, by simp, rfl, by simp,
        rfl, ?_⟩
      intro e he
      simp at he
    | error e0 =>
      simp only [ho]
      by_cases hp : pred e0
      · simp only [hp, if_true]
        obtain ⟨extra, hA, hlen1, hlen2, hS, hDrop, hAll, hLast, hExh⟩ :=
          ih (k + 1) (attempts ++ [⟨req, .error e0⟩])
            (sleeps ++ [intervalMs])
        rcases extra with _ | ⟨x, xs⟩
        · simp at hlen1
        · refine ⟨⟨req, .error e0⟩ :: x :: xs, ?_, ?_, ?_, ?_, ?_, ?_, ?_, ?_⟩
          · rw [hA]; simp
          · simp
          · simp only [List.length_cons] at hlen2 ⊢; omega
          · rw [hS, List.append_assoc]
            simp [List.replicate_succ, List.length_cons]
          · rw [List.dropLast_cons_of_ne_nil (by simp)]
            rw [List.all_cons]
            refine (Bool.and_eq_true _ _).mpr ⟨?_, hDrop⟩
            simp [errSatisfies, hp]
          · rw [List.all_cons]
            refine (Bool.and_eq_true _ _).mpr ⟨by simp, hAll⟩
          · rw [List.getLast?_cons_cons]
            exact hLast
          · intro e he hpe
            have := hExh e he hpe
            simp only [List.length_cons] at this ⊢
            omega
      · have hp' : (!pred e0) = true := by simp [hp]
        rw [if_neg (by simp [hp])]
        refine ⟨[⟨req, .error e0⟩], rfl, by simp, by simp, by simp, rfl,
          by simp, rfl, ?_⟩
        intro e he hpe
        simp only [Except.error.injEq] at he
        subst he
        simp [hpe] at hp

theorem replicate_all_eq (n x : Nat) :
    (List.replicate n x).all (fun s => s == x) = true := by
  rw [List.all_eq_true]
  intro s hs
  rw [List.mem_replicate] at hs
  simp [hs.2]

/-- **C9.** `callGemini` retries only on HTTP-500 errors, at the fixed
1000 ms interval, within a bounded budget (at most 5 attempts in the retry
phase, so at most 4 sleeps, each of exactly 1000 ms); every non-final
attempt failed with a 500 (hence a non-500 error is re-raised immediately
with no retry and no fallback); all attempts use the original request except
that, exactly when the retry budget was exhausted with the error still a
500, one additional attempt — the sixth — is issued with the paired
alternate model; the final result is the last attempt's outcome; and the
pairing swaps pro with flash and pro-image with flash-image. -/
theorem callGemini_retry_spec
    (oracle : Nat → GenerateContentParameters →
      Except GemErrorInfo (List GeminiPartOfInterest))
    (req : GenerateContentParameters) :
    (callGemini oracle req).attempts.length ≤ 6 ∧
    (callGemini oracle req).sleeps.all (fun s => s == 1000) = true ∧
    (callGemini oracle req).sleeps.length ≤ 4 ∧
    (callGemini oracle req).attempts.dropLast.all
        (errSatisfies is500Error) = true ∧
    (if (callGemini oracle req).attempts.length = 6
      then (callGemini oracle req).attempts.dropLast.all
            (fun a => decide (a.req = req)) &&
          ((callGemini oracle req).attempts.getLast?.all (fun a =>
            decide (a.req
              = { req with model := alternateModel req.model })))
      else (callGemini oracle req).attempts.all
            (fun a => decide (a.req = req))) = true ∧
    ((callGemini oracle req).attempts.getLast?.map (fun a => a.outcome)
      = some (callGemini oracle req).result) ∧
    (alternateModel geminiProVersion = geminiFlashVersion ∧
      alternateModel geminiFlashVersion = geminiProVersion ∧
      alternateModel geminiProImageVersion = geminiFlashImageVersion ∧
      alternateModel geminiFlashImageVersion = geminiProImageVersion) := by
  obtain ⟨extra, hA, hlen1, hlen2, hS, hDrop, hAll, hLast, hExh⟩ :=
    conditionalRetryGo_spec is500Error 1000 oracle req 4 0 [] []
  rw [List.nil_append] at hA hS
  have hsame :
      (callGeminiWithRetry oracle req).attempts.length ≤ 6 ∧
      (callGeminiWithRetry oracle req).sleeps.all
          (fun s => s == 1000) = true ∧
      (callGeminiWithRetry oracle req).sleeps.length ≤ 4 ∧
      (callGeminiWithRetry oracle req).attempts.dropLast.all
          (errSatisfies is500Error) = true ∧
      (if (callGeminiWithRetry oracle req).attempts.length = 6
        then (callGeminiWithRetry oracle req).attempts.dropLast.all
              (fun a => decide (a.req = req)) &&
            ((callGeminiWithRetry oracle req).attempts.getLast?.all (fun a =>
              decide (a.req
                = { req with model := alternateModel req.model })))
        else (callGeminiWithRetry oracle req).attempts.all
              (fun a => decide (a.req = req))) = true ∧
      ((callGeminiWithRetry oracle req).attempts.getLast?.map
          (fun a => a.outcome)
        = some (callGeminiWithRetry oracle req).result) := by
    unfold callGeminiWithRetry
    rw [hA, hS]
    refine ⟨by omega, replicate_all_eq _ _, by simp; omega, ?_, ?_, ?_⟩
    · have : extra.dropLast.length < extra.length := by
        rw [List.length_dropLast]; omega
      exact hDrop
    · rw [if_neg (by omega)]
      exact hAll
    · rw [hLast]
      rfl
  unfold callGemini
  cases hres : (callGeminiWithRetry oracle req).result with
  | ok out =>
    simp only [hres]
    rw [hres] at hsame
    exact ⟨hsame.1, hsame.2.1, hsame.2.2.1, hsame.2.2.2.1, hsame.2.2.2.2.1,
      hsame.2.2.2.2.2, by decide, by decide, by decide, by decide⟩
  | error err =>
    simp only [hres]
    by_cases h500 : is500Error err
    · rw [if_neg (by simp [h500])]
      have hext : extra.length = 5 := by
        exact hExh err hres h500
      have hAttLen : (callGeminiWithRetry oracle req).attempts.length = 5 := by
        unfold callGeminiWithRetry
        rw [hA, hext]
      have hne : extra ≠ [] := by
        intro hcon
        rw [hcon] at hext
        simp at hext
      have hLastVal : extra.getLast hne = ⟨req, .error err⟩ := by
        have h1 : extra.getLast? = some (extra.getLast hne) :=
          List.getLast?_eq_getLast extra hne
        rw [h1] at hLast
        have h2 : extra.getLast hne = ⟨req,
            (conditionalRetryGo is500Error 1000 oracle req 4 0 [] []).result⟩ :=
          Option.some.inj hLast
        rw [h2]
        have h3 : (conditionalRetryGo is500Error 1000 oracle req
            4 0 [] []).result = Except.error err := hres
        rw [h3]
      have hAllErr : extra.all (errSatisfies is500Error) = true := by
        have hdecomp := List.dropLast_append_getLast hne
        rw [← hdecomp, List.all_append]
        refine (Bool.and_eq_true _ _).mpr ⟨hDrop, ?_⟩
        rw [List.all_cons]
        have : errSatisfies is500Error (extra.getLast hne) = true := by
          rw [hLastVal]
          simp [errSatisfies, h500]
        simp [this]
      constructor
      · simp only [List.length_append, List.length_singleton]
        unfold callGeminiWithRetry
        rw [hA]
        omega
      · refine ⟨hsame.2.1, hsame.2.2.1, ?_, ?_, ?_,
          by decide, by decide, by decide, by decide⟩
        · simp only [List.dropLast_concat]
          unfold callGeminiWithRetry
          rw [hA]
          exact hAllErr
        · rw [if_pos (by
            simp only [List.length_append, List.length_singleton]
            unfold callGeminiWithRetry
            rw [hA]
            omega)]
          refine (Bool.and_eq_true _ _).mpr ⟨?_, ?_⟩
          · simp only [List.dropLast_concat]
            unfold callGeminiWithRetry
            rw [hA]
            exact hAll
          · rw [List.getLast?_concat]
            simp
        · rw [List.getLast?_concat]
          rfl
    · rw [if_pos (by simp [h500])]
      exact ⟨hsame.1, hsame.2.1, hsame.2.2.1, hsame.2.2.2.1, hsame.2.2.2.2.1,
        hsame.2.2.2.2.2, by decide, by decide, by decide, by decide⟩
